import Mathlib

/-!
# rkgk client synchronisation core

A shallow embedding of `static/wall.js` and `static/index.js`.

* JavaScript `Map` objects are insertion-ordered association lists (`JsMap`).
* The closure variables of the session set-up in `index.js` (`wall`,
  `pendingChunks`, `chunkDownloadStates`, `plotQueue`, ...) are the fields of
  one record, `Client`; every event listener is a function `Client → Client`.
* Calls into collaborators that live outside the two files (the session, the
  reticle renderer, the console, the brush engine, the image decoder) are
  recorded in the record, in call order.
-/

namespace Rkgk

/-! ## JavaScript `Map` -/

/-- A JavaScript `Map`: entries in insertion order. -/
abbrev JsMap (κ : Type) (ν : Type) := List (κ × ν)

namespace JsMap

variable {κ ν : Type} [DecidableEq κ]

/-- JS `Map.prototype.get`: the value stored under `k`, `none` for `undefined`. -/
def get : JsMap κ ν → κ → Option ν
  | [], _ => none
  | (k', v) :: rest, k => if k' = k then some v else get rest k

/-- JS `Map.prototype.has`. -/
def has (m : JsMap κ ν) (k : κ) : Bool := (get m k).isSome

/-- JS `Map.prototype.set`: overwrite in place when the key exists, append otherwise. -/
def set : JsMap κ ν → κ → ν → JsMap κ ν
  | [], k, v => [(k, v)]
  | (k', v') :: rest, k, v => if k' = k then (k', v) :: rest else (k', v') :: set rest k v

/-- JS `Map.prototype.delete`: the entry under `k` is removed, the order of the
others is kept. -/
def delete (m : JsMap κ ν) (k : κ) : JsMap κ ν := m.filter (fun e => e.1 ≠ k)

/-- The keys of the map, in insertion order. -/
def keys (m : JsMap κ ν) : List κ := m.map Prod.fst

end JsMap

/-! ## `wall.js` -/

/-- Pixel data of a canvas, a pixmap or a decoded image. -/
abbrev Bitmap := List Nat

/-- Transparent pixel data of a `size × size` surface (four channels per pixel). -/
def blankPixels (size : Nat) : Bitmap := List.replicate (size * size * 4) 0

/-- Class `Chunk`: a pixmap and an offscreen canvas of the same dimensions. -/
structure Chunk where
  size : Nat
  pixmap : Bitmap
  canvas : Bitmap
  deriving DecidableEq, Repr

/-- JS `new Chunk(size)`: a `size × size` pixmap and a `size × size` canvas, both
transparent. -/
def Chunk.new (size : Nat) : Chunk :=
  { size := size, pixmap := blankPixels size, canvas := blankPixels size }

/-- JS `Chunk.syncFromPixmap`. -/
def Chunk.syncFromPixmap (chunk : Chunk) : Chunk := { chunk with canvas := chunk.pixmap }

/-- JS `Chunk.syncToPixmap`. -/
def Chunk.syncToPixmap (chunk : Chunk) : Chunk := { chunk with pixmap := chunk.canvas }

/-- Identity of a connection. -/
abbrev SessionId := Nat

/-- Identity of a `ReticleCursor` object. -/
abbrev ReticleId := Nat

/-- Coordinates carried by cursor and plot events; the client only forwards them. -/
abbrev Coord := Int

/-- Modelled from the spec: a `ReticleCursor` object of `reticle-renderer.js`, "the
visual representation of a remote user's cursor". Field `id` is its object
identity, `cursor` the last position given to `setCursor`. -/
structure ReticleCursor where
  id : ReticleId
  nickname : String
  cursor : Option (Coord × Coord)
  deriving DecidableEq, Repr

/-- Modelled from the spec: `ReticleCursor.setCursor(x, y)` of `reticle-renderer.js`,
which is to "update its position to the event's (x, y)". -/
def ReticleCursor.setCursor (r : ReticleCursor) (x y : Coord) : ReticleCursor :=
  { r with cursor := some (x, y) }

/-- Modelled from the spec: class `User` of `online-users.js`, with "`nickname`,
`brush` (opaque program source), optional owned cursor-visual handle (reticle)". -/
structure User where
  nickname : String
  brush : String
  reticle : Option ReticleCursor
  deriving DecidableEq, Repr

/-- Modelled from the spec: `user.setBrush(program)` of `online-users.js`, which
"replaces stored brush". -/
def User.setBrush (user : User) (brush : String) : User := { user with brush := brush }

/-- Modelled from the spec: class `OnlineUsers` of `online-users.js`, a "mapping
`sessionId → OnlineUser`". -/
structure OnlineUsers where
  users : JsMap SessionId User
  deriving DecidableEq, Repr

/-- Modelled from the spec: what `addUser` of `online-users.js` does when
`sessionId` is already present. The spec names two behaviours and does not choose:
its contract is "failing with a duplicate-key condition if sessionId already
present (overwrite is disallowed)", while "the reference behavior silently allows
re-add". Everything below is stated for both. -/
inductive DuplicatePolicy where
  /-- the call fails and the registry is as before -/
  | fail
  /-- the entry is replaced by the new user -/
  | replace
  deriving DecidableEq, Repr

/-- Modelled from the spec: `addUser(sessionId, {nickname, brush})` of
`online-users.js`. It "inserts" a user without a reticle; when `sessionId` is
already present the result follows `duplicates`, `none` standing for the failure
with "a duplicate-key condition". -/
def OnlineUsers.addUser (duplicates : DuplicatePolicy) (o : OnlineUsers) (sessionId : SessionId)
    (nickname brush : String) : Option OnlineUsers :=
  match o.users.get sessionId, duplicates with
  | some _, .fail => none
  | _, _ =>
    some { users := o.users.set sessionId
                      { nickname := nickname, brush := brush, reticle := none } }

/-- Modelled from the spec: `getUser(sessionId)` of `online-users.js`, which
"returns the user or none". -/
def OnlineUsers.getUser (o : OnlineUsers) (sessionId : SessionId) : Option User :=
  o.users.get sessionId

/-- Modelled from the spec: `removeUser(sessionId)` of `online-users.js`, which
"removes the entry". -/
def OnlineUsers.removeUser (o : OnlineUsers) (sessionId : SessionId) : OnlineUsers :=
  { users := o.users.delete sessionId }

/-- Class `Wall`: `chunkSize`, the private `#chunks` map and `onlineUsers`. -/
structure Wall where
  chunkSize : Nat
  chunks : JsMap String Chunk
  onlineUsers : OnlineUsers
  deriving DecidableEq, Repr

/-- Modelled from the spec: `reticleRenderer.addReticle(reticle)` of
`reticle-renderer.js`; the renderer holds the reticles added and not yet removed. -/
def addReticle (reticles : List ReticleId) (id : ReticleId) : List ReticleId :=
  reticles ++ [id]

/-- Modelled from the spec: `reticleRenderer.removeReticle(reticle)` of
`reticle-renderer.js`; afterwards the renderer no longer holds the reticle. -/
def removeReticle (reticles : List ReticleId) (id : ReticleId) : List ReticleId :=
  reticles.filter (fun r => r ≠ id)

/-- JS `Wall.chunkKey(x, y)`: the template literal that renders both coordinates in
decimal between parentheses, separated by a comma. -/
def chunkKey (x y : Int) : String :=
  "(" ++ toString x ++ "," ++ toString y ++ ")"

/-- JS `Wall.getChunk(x, y)`. -/
def Wall.getChunk (wall : Wall) (x y : Int) : Option Chunk :=
  wall.chunks.get (chunkKey x y)

/-- JS `Wall.getOrCreateChunk(x, y)`: the chunk returned and the wall afterwards. -/
def Wall.getOrCreateChunk (wall : Wall) (x y : Int) : Chunk × Wall :=
  let key := chunkKey x y
  match wall.chunks.get key with
  | some chunk => (chunk, wall)
  | none =>
    let chunk := Chunk.new wall.chunkSize
    (chunk, { wall with chunks := wall.chunks.set key chunk })

/-! ## `index.js`: data -/

/-- The two strings stored in `chunkDownloadStates`: `"requested"` and `"downloaded"`. -/
inductive DownloadState where
  | requested
  | downloaded
  deriving DecidableEq, Repr

/-- A point `{x, y}` of a cursor or plot event. -/
structure Point where
  x : Coord
  y : Coord
  deriving DecidableEq, Repr

/-- JS `wallEvent.kind`, tagged by `kind.event`. -/
inductive WallEventKind where
  | join (nickname : String) (brush : String)
  | leave
  | cursor (position : Point)
  | setBrush (brush : String)
  | plot (points : List Point)
  deriving DecidableEq, Repr

/-- A wall event delivered by the session. -/
structure WallEvent where
  sessionId : SessionId
  kind : WallEventKind
  deriving DecidableEq, Repr

/-- The rectangle returned by `canvasRenderer.getVisibleChunkRect()`. -/
structure Rect where
  left : Int
  right : Int
  top : Int
  bottom : Int
  deriving DecidableEq, Repr

/-- The grid position `{x, y}` of a chunk. -/
structure ChunkPosition where
  x : Int
  y : Int
  deriving DecidableEq, Repr

/-- One element of `event.chunkInfo`: `{position: {x, y}, offset, length}`, the
offset and the length counting bytes of `chunkData`. -/
structure ChunkInfo where
  position : ChunkPosition
  offset : Nat
  length : Nat
  deriving DecidableEq, Repr

/-- A `chunks` event: the entry list and the bytes of the `chunkData` blob. -/
structure ChunksEvent where
  chunkInfo : List ChunkInfo
  chunkData : List Nat
  deriving DecidableEq, Repr

/-- JS `Blob.slice(start, end)` for byte positions `start ≤ end`. -/
def blobSlice (blob : List Nat) (start stop : Nat) : List Nat :=
  (blob.drop start).take (stop - start)

/-- A call made by the listeners of `index.js` to a collaborator defined outside
`index.js` and `wall.js`. -/
inductive Call where
  /-- JS `session.sendViewport(visibleRect)` -/
  | sendViewport (visibleRect : Rect)
  /-- JS `session.sendCursor(x, y)` -/
  | sendCursor (x y : Coord)
  /-- JS `session.sendPlot(points)` -/
  | sendPlot (points : List Point)
  /-- JS `session.sendSetBrush(code)` -/
  | sendSetBrush (brush : String)
  /-- JS `console.warn("received event for an unknown user", wallEvent)` -/
  | warn (wallEvent : WallEvent)
  /-- JS `new ReticleCursor(nickname)`, yielding the object `id` -/
  | newReticleCursor (id : ReticleId) (nickname : String)
  /-- JS `reticleRenderer.addReticle(reticle)` -/
  | addReticle (id : ReticleId)
  /-- JS `reticleRenderer.removeReticle(reticle)` -/
  | removeReticle (id : ReticleId)
  /-- JS `user.renderBrushToChunks(wall, x, y)` on the user stored under `sessionId`,
  whose brush is `brush` -/
  | renderBrushToChunks (sessionId : SessionId) (brush : String) (x y : Coord)
  /-- JS `createImageBitmap(blob).then(...)` with the continuation for chunk `(x, y)` -/
  | createImageBitmap (blob : List Nat) (x y : Int)
  deriving DecidableEq, Repr

/-- The state the listeners of `index.js` close over. -/
structure Client where
  /-- JS `session.sessionId` -/
  sessionId : SessionId
  wall : Wall
  pendingChunks : Int
  chunkDownloadStates : JsMap String DownloadState
  plotQueue : List Point
  /-- the reticles currently added to `reticleRenderer` -/
  reticles : List ReticleId
  /-- the identity the next `new ReticleCursor` receives -/
  nextReticle : ReticleId
  /-- calls to collaborators, oldest first -/
  calls : List Call
  deriving DecidableEq, Repr

/-- Record a call to a collaborator. -/
def Client.call (c : Client) (call : Call) : Client := { c with calls := c.calls ++ [call] }

/-- The brush engine behind `user.renderBrushToChunks(wall, x, y)`: the chunks of
the wall after the user's brush has been applied at `(x, y)`. -/
abbrev BrushEngine := User → Wall → Coord → Coord → JsMap String Chunk

/-! ## `index.js`: listeners -/

/-- The values `lo, lo + 1, ...` below `hi` that a counting `for` loop visits. -/
def intRange (lo hi : Int) : List Int :=
  (List.range (hi - lo).toNat).map (fun (i : Nat) => lo + i)

/-- The `"wallEvent"` listener; `duplicates` is the behaviour of `addUser` on a
session that is already present. When `addUser` fails, the exception leaves the
listener and the client is as before the event. -/
def onWallEvent (duplicates : DuplicatePolicy) (engine : BrushEngine) (c : Client)
    (wallEvent : WallEvent) : Client :=
  if wallEvent.sessionId ≠ c.sessionId then
    let added : Option Client :=
      match wallEvent.kind with
      | .join nickname brush =>
        (c.wall.onlineUsers.addUser duplicates wallEvent.sessionId nickname brush).map
          (fun onlineUsers => { c with wall.onlineUsers := onlineUsers })
      | _ => some c
    match added with
    | none => c
    | some c =>
      match c.wall.onlineUsers.getUser wallEvent.sessionId with
      | none => c.call (.warn wallEvent)
      | some user =>
        match wallEvent.kind with
        | .join _ _ => c
        | .leave =>
          let c :=
            match user.reticle with
            | some reticle =>
              { c.call (.removeReticle reticle.id) with
                  reticles := removeReticle c.reticles reticle.id }
            | none => c
          { c with wall.onlineUsers := c.wall.onlineUsers.removeUser wallEvent.sessionId }
        | .cursor position =>
          -- `user` is the object stored under `wallEvent.sessionId`; assignments to
          -- its fields are written back to the registry
          let (reticle, c) :=
            match user.reticle with
            | some reticle => (reticle, c)
            | none =>
              let reticle : ReticleCursor :=
                { id := c.nextReticle, nickname := user.nickname, cursor := none }
              let c := { c.call (.newReticleCursor reticle.id user.nickname) with
                          nextReticle := c.nextReticle + 1 }
              (reticle, { c.call (.addReticle reticle.id) with
                            reticles := addReticle c.reticles reticle.id })
          let user := { user with reticle := some (reticle.setCursor position.x position.y) }
          { c with wall.onlineUsers.users := c.wall.onlineUsers.users.set wallEvent.sessionId user }
        | .setBrush brush =>
          { c with wall.onlineUsers.users :=
                    c.wall.onlineUsers.users.set wallEvent.sessionId (user.setBrush brush) }
        | .plot points =>
          points.foldl
            (fun c p =>
              { c.call (.renderBrushToChunks wallEvent.sessionId user.brush p.x p.y) with
                  wall.chunks := engine user c.wall p.x p.y })
            c
  else c

/-- The body of the two nested loops of `sendViewportUpdate` for one chunk position. -/
def requestChunk (c : Client) (chunkX chunkY : Int) : Client :=
  let key := chunkKey chunkX chunkY
  match c.chunkDownloadStates.get key with
  | none =>
    { c with chunkDownloadStates := c.chunkDownloadStates.set key .requested
             pendingChunks := c.pendingChunks + 1 }
  | some _ => c

/-- Function `sendViewportUpdate`, with `visibleRect` the rectangle that
`canvasRenderer.getVisibleChunkRect()` returns. -/
def sendViewportUpdate (visibleRect : Rect) (c : Client) : Client :=
  let c := c.call (.sendViewport visibleRect)
  (intRange visibleRect.top visibleRect.bottom).foldl
    (fun c chunkY =>
      (intRange visibleRect.left visibleRect.right).foldl
        (fun c chunkX => requestChunk c chunkX chunkY) c)
    c

/-- The body of the loop of the `"chunks"` listener for one entry `info`. -/
def receiveChunk (chunkData : List Nat) (c : Client) (info : ChunkInfo) : Client :=
  let key := chunkKey info.position.x info.position.y
  let c :=
    if c.chunkDownloadStates.get key = some .requested then
      { c with pendingChunks := c.pendingChunks - 1 }
    else c
  let c := { c with chunkDownloadStates := c.chunkDownloadStates.set key .downloaded }
  if info.length > 0 then
    let blob := blobSlice chunkData info.offset (info.offset + info.length)
    c.call (.createImageBitmap blob info.position.x info.position.y)
  else c

/-- The `"chunks"` listener. -/
def onChunks (event : ChunksEvent) (c : Client) : Client :=
  event.chunkInfo.foldl (receiveChunk event.chunkData) c

/-- The continuation passed to `createImageBitmap(blob).then` for the chunk at
`(x, y)`, run with the decoded `bitmap`: the canvas is replaced by the bitmap
(composite operation `"copy"`) and copied to the pixmap. -/
def onBitmap (x y : Int) (bitmap : Bitmap) (c : Client) : Client :=
  let (chunk, wall) := c.wall.getOrCreateChunk x y
  let chunk := { chunk with canvas := bitmap }
  let chunk := chunk.syncToPixmap
  { c with wall := { wall with chunks := wall.chunks.set (chunkKey x y) chunk } }

/-- Function `flushPlotQueue`. -/
def flushPlotQueue (c : Client) : Client :=
  let points := c.plotQueue
  let c := { c with plotQueue := [] }
  if points.length ≠ 0 then c.call (.sendPlot points) else c

/-- Run the `"wallEvent"` listener on a sequence of wall events, first to last. -/
def runWallEvents (duplicates : DuplicatePolicy) (engine : BrushEngine) (c : Client)
    (events : List WallEvent) : Client :=
  events.foldl (onWallEvent duplicates engine) c

/-- The cursor events of session `sessionId` for a sequence of positions. -/
def cursorEvents (sessionId : SessionId) (positions : List Point) : List WallEvent :=
  positions.map (fun position => { sessionId := sessionId, kind := .cursor position })

/-- An event of the chunk download tracker. -/
inductive TrackerEvent where
  /-- a `".viewportUpdate"` event, the visible rectangle being `visibleRect` -/
  | viewportUpdate (visibleRect : Rect)
  /-- a `"chunks"` event of the session -/
  | chunks (event : ChunksEvent)
  deriving DecidableEq, Repr

/-- Run the listener of a tracker event. -/
def trackerStep (c : Client) : TrackerEvent → Client
  | .viewportUpdate visibleRect => sendViewportUpdate visibleRect c
  | .chunks event => onChunks event c

/-- Run the listeners of a sequence of tracker events, first to last. -/
def trackerRun (c : Client) (events : List TrackerEvent) : Client :=
  events.foldl trackerStep c

/-- The keys of `chunkDownloadStates` whose state is `"requested"`. -/
def requestedKeys (m : JsMap String DownloadState) : List String :=
  (m.filter (fun e => e.2 = .requested)).map Prod.fst

/-- The number of events of the sequence during which `key` enters the state
`"requested"`: it is not in that state before the listener runs and is in it
afterwards. -/
def requestTransitions (key : String) : Client → List TrackerEvent → Nat
  | _, [] => 0
  | c, e :: es =>
    (if c.chunkDownloadStates.get key ≠ some .requested ∧
          (trackerStep c e).chunkDownloadStates.get key = some .requested then 1 else 0)
      + requestTransitions key (trackerStep c e) es

/-- A client right after set-up: nothing tracked, nothing pending, no chunk, no
call made yet, `online` the users of `wallInfo.online`. -/
def Client.init (sessionId : SessionId) (chunkSize : Nat) (online : JsMap SessionId User) :
    Client :=
  { sessionId := sessionId
    wall := { chunkSize := chunkSize, chunks := [], onlineUsers := { users := online } }
    pendingChunks := 0
    chunkDownloadStates := []
    plotQueue := []
    reticles := []
    nextReticle := 0
    calls := [] }

/-- The `".paint"` listener for the point `(x, y)`: the point is queued, then the
brush of `currentUser` is applied. `currentUser` is the object that set-up read
from the registry under `session.sessionId`; the `"wallEvent"` listener never
writes that entry, so it is still the entry stored there. Without such an entry
the call on `currentUser` throws and the listener ends after the `push`. -/
def onPaint (engine : BrushEngine) (x y : Coord) (c : Client) : Client :=
  let c := { c with plotQueue := c.plotQueue ++ [({ x := x, y := y } : Point)] }
  match c.wall.onlineUsers.getUser c.sessionId with
  | some currentUser =>
    { c.call (.renderBrushToChunks c.sessionId currentUser.brush x y) with
        wall.chunks := engine currentUser c.wall x y }
  | none => c

/-- The `".codeChanged"` listener, `code` being `brushEditor.code`: the queue is
flushed, the brush of `currentUser` is replaced and `sendSetBrush` is called.
Without an entry for `currentUser` the call on it throws and the listener ends
after the flush. -/
def onCodeChanged (code : String) (c : Client) : Client :=
  let c := flushPlotQueue c
  match c.wall.onlineUsers.getUser c.sessionId with
  | some currentUser =>
    let c :=
      { c with
        wall.onlineUsers.users :=
          c.wall.onlineUsers.users.set c.sessionId (currentUser.setBrush code) }
    c.call (.sendSetBrush code)
  | none => c

/-- A local event that touches the plot queue. -/
inductive LocalEvent where
  /-- a `".paint"` event at `(x, y)` -/
  | paint (x y : Coord)
  /-- a tick of `setInterval(flushPlotQueue, updateInterval)` -/
  | tick
  /-- a `".codeChanged"` event, `brushEditor.code` being `code` -/
  | codeChanged (code : String)
  deriving DecidableEq, Repr

/-- Run the listener of a local event. -/
def localStep (engine : BrushEngine) (c : Client) : LocalEvent → Client
  | .paint x y => onPaint engine x y c
  | .tick => flushPlotQueue c
  | .codeChanged code => onCodeChanged code c

/-- Run the listeners of a sequence of local events, first to last. -/
def localRun (engine : BrushEngine) (c : Client) (events : List LocalEvent) : Client :=
  events.foldl (localStep engine) c

/-- The constant `updateInterval` of `index.js`, in milliseconds. -/
def updateInterval : ℚ := 1000 / 60

/-- Modelled from the spec: the state of `reportCursor`, the function that
`debounce(updateInterval, (x, y) => session.sendCursor(x, y))` of `framework.js`
returns, a "trailing-edge debounce with a fixed quiescence interval". Field
`timeout` is the pending timer, if any: the time at which it fires and the
arguments of the last call; `calls` are the calls made to the session. -/
structure CursorReporter where
  timeout : Option (ℚ × Coord × Coord)
  calls : List Call
  deriving DecidableEq, Repr

/-- Modelled from the spec: the passing of time up to `now` for `reportCursor`; a
pending timer whose time has come fires, which calls `session.sendCursor` with
the arguments of the last call. -/
def CursorReporter.elapse (now : ℚ) (r : CursorReporter) : CursorReporter :=
  match r.timeout with
  | some (due, x, y) =>
    if due ≤ now then { timeout := none, calls := r.calls ++ [.sendCursor x y] } else r
  | none => r

/-- Modelled from the spec: the `".cursor"` listener at time `now`, which calls
`reportCursor(event.x, event.y)`; the pending timer is replaced by one that fires
one interval later, with the new arguments. -/
def CursorReporter.reportCursor (now : ℚ) (x y : Coord) (r : CursorReporter) :
    CursorReporter :=
  { r.elapse now with timeout := some (now + updateInterval, x, y) }

/-- A `".cursor"` event: the time at which it arrives and its position. -/
structure CursorMove where
  time : ℚ
  x : Coord
  y : Coord
  deriving DecidableEq, Repr

/-- Run the `".cursor"` listener on a sequence of events, first to last. -/
def CursorReporter.run (r : CursorReporter) (moves : List CursorMove) : CursorReporter :=
  moves.foldl (fun r m => r.reportCursor m.time m.x m.y) r

/-- JS `new Wall(wallInfo)`: no chunk yet, `users` the initial registry. -/
def Wall.new (chunkSize : Nat) (users : JsMap SessionId User) : Wall :=
  { chunkSize := chunkSize, chunks := [], onlineUsers := { users := users } }

/-- A call of a method of the chunk store. -/
inductive WallOp where
  /-- JS `wall.getChunk(x, y)` -/
  | getChunk (x y : Int)
  /-- JS `wall.getOrCreateChunk(x, y)` -/
  | getOrCreateChunk (x y : Int)
  deriving DecidableEq, Repr

/-- The wall after a call of a method of the chunk store. -/
def Wall.apply (wall : Wall) : WallOp → Wall
  | .getChunk _ _ => wall
  | .getOrCreateChunk x y => (wall.getOrCreateChunk x y).2

/-- The wall after a sequence of calls of methods of the chunk store. -/
def Wall.applyAll (wall : Wall) (ops : List WallOp) : Wall :=
  ops.foldl Wall.apply wall

/-! ## Auxiliary definitions used in the statements and proofs -/

/-- The key of a grid position. -/
def positionKey (p : Int × Int) : String := chunkKey p.1 p.2

/-- The key of the chunk an entry of `chunkInfo` is about. -/
def infoKey (info : ChunkInfo) : String := chunkKey info.position.x info.position.y

/-- The grid positions `(x, y)` that the loops of `sendViewportUpdate` visit, in
visiting order. -/
def rectPositions (r : Rect) : List (Int × Int) :=
  (intRange r.top r.bottom).flatMap (fun y => (intRange r.left r.right).map (fun x => (x, y)))

/-- Run the body of the loops of `sendViewportUpdate` on a list of positions. -/
def requestChunks (c : Client) (ps : List (Int × Int)) : Client :=
  ps.foldl (fun c p => requestChunk c p.1 p.2) c

/-- The decode that the `"chunks"` listener starts for an entry, if any. -/
def decodeCall (chunkData : List Nat) (info : ChunkInfo) : Option Call :=
  if info.length > 0 then
    some (.createImageBitmap ((chunkData.drop info.offset).take info.length) info.position.x info.position.y)
  else none

/-- The effect of one wall event on the flag "a cursor event of `sessionId` has
arrived since its last join event": a join event of `sessionId` clears it, a
cursor event of `sessionId` sets it, any other event keeps it. -/
def cursorFlagStep (sessionId : SessionId) (seen : Bool) (ev : WallEvent) : Bool :=
  if ev.sessionId = sessionId then
    match ev.kind with
    | .join _ _ => false
    | .cursor _ => true
    | _ => seen
  else seen

/-- Whether `events` has a cursor event of `sessionId` after the last join event of
`sessionId`, or any cursor event of `sessionId` when it has no such join event. -/
def cursorSinceJoin (sessionId : SessionId) (events : List WallEvent) : Bool :=
  events.foldl (cursorFlagStep sessionId) false

/-- The link between the registry entry of `sessionId` and the flag of
`cursorFlagStep`: if there is an entry, it has a reticle exactly when the flag is
set. -/
def ReticleInv (sessionId : SessionId) (c : Client) (seen : Bool) : Prop :=
  ∀ user, c.wall.onlineUsers.getUser sessionId = some user → user.reticle.isSome = seen

/-- The batches of the `sendPlot` calls among `calls`, in call order. -/
def plotBatches (calls : List Call) : List (List Point) :=
  calls.filterMap (fun call => match call with | .sendPlot points => some points | _ => none)

/-- The points of the paint events among `events`, in order. -/
def paintedPoints (events : List LocalEvent) : List Point :=
  events.filterMap (fun ev => match ev with | .paint x y => some (Point.mk x y) | _ => none)

/-- Whether a tracker event is a `chunks` event with an entry for `key`. -/
def namesKey (key : String) : TrackerEvent → Bool
  | .viewportUpdate _ => false
  | .chunks event => decide (key ∈ event.chunkInfo.map infoKey)

/-- The invariant of the tracker: the keys of the map are pairwise distinct and
`pendingChunks` is the number of entries in state `"requested"`. -/
def TrackerInv (c : Client) : Prop :=
  (JsMap.keys c.chunkDownloadStates).Nodup ∧
    c.pendingChunks = ((requestedKeys c.chunkDownloadStates).length : Int)

/-- The value of a decimal digit character. -/
def digitValue (ch : Char) : Nat := ch.toNat - 48

/-- Read a list of decimal digit characters back as a number. -/
def readDigits (cs : List Char) : Nat := Nat.ofDigits 10 (cs.reverse.map digitValue)

/-- The characters of the decimal rendering of an integer. -/
def intChars : Int → List Char
  | Int.ofNat m => Nat.toDigits 10 m
  | Int.negSucc m => '-' :: Nat.toDigits 10 (m + 1)

/-! ## Lemmas: `JsMap` -/

namespace JsMap

variable {κ ν : Type} [DecidableEq κ]

theorem get_set_self (m : JsMap κ ν) (k : κ) (v : ν) : get (set m k v) k = some v := by
  induction m with
  | nil => simp [set, get]
  | cons e rest ih =>
    obtain ⟨k', v'⟩ := e
    by_cases h : k' = k <;> simp [set, get, h, ih]

theorem get_set_of_ne (m : JsMap κ ν) {k k' : κ} (v : ν) (h : k ≠ k') :
    get (set m k v) k' = get m k' := by
  induction m with
  | nil => simp [set, get, h]
  | cons e rest ih =>
    obtain ⟨k₀, v₀⟩ := e
    by_cases h₀ : k₀ = k
    · subst h₀; simp [set, get, h]
    · by_cases h₁ : k₀ = k'
      · subst h₁; simp [set, get, h₀]
      · simp [set, get, h₀, h₁, ih]

theorem get_set (m : JsMap κ ν) (k k' : κ) (v : ν) :
    get (set m k v) k' = if k = k' then some v else get m k' := by
  by_cases h : k = k'
  · subst h; simp [get_set_self]
  · simp [h, get_set_of_ne]

theorem get_eq_none_iff (m : JsMap κ ν) (k : κ) : get m k = none ↔ k ∉ keys m := by
  induction m with
  | nil => simp [get, keys]
  | cons e rest ih =>
    obtain ⟨k₀, v₀⟩ := e
    by_cases h₀ : k₀ = k
    · simp [get, keys, h₀]
    · have : ¬ k = k₀ := fun h => h₀ h.symm
      simpa [get, keys, h₀, this] using ih

theorem keys_set (m : JsMap κ ν) (k : κ) (v : ν) :
    keys (set m k v) = if k ∈ keys m then keys m else keys m ++ [k] := by
  induction m with
  | nil => simp [set, keys]
  | cons e rest ih =>
    obtain ⟨k₀, v₀⟩ := e
    by_cases h₀ : k₀ = k
    · simp [set, keys, h₀]
    · have hne : ¬ k = k₀ := fun h => h₀ h.symm
      have ih' := ih
      simp only [keys] at ih'
      simp only [set, keys, h₀, if_false, List.map_cons, List.mem_cons, hne, false_or, ih']
      split <;> simp

theorem keys_set_nodup (m : JsMap κ ν) (k : κ) (v : ν) (h : (keys m).Nodup) :
    (keys (set m k v)).Nodup := by
  rw [keys_set]
  split
  · exact h
  · rename_i hk
    exact List.Nodup.append h (List.nodup_singleton k) (by simpa using hk)

theorem get_delete_self (m : JsMap κ ν) (k : κ) : get (delete m k) k = none := by
  induction m with
  | nil => simp [delete, get]
  | cons e rest ih =>
    obtain ⟨k₀, v₀⟩ := e
    by_cases h₀ : k₀ = k
    · simpa [delete, List.filter_cons, h₀] using ih
    · simpa [delete, List.filter_cons, get, h₀] using ih

theorem get_delete_of_ne (m : JsMap κ ν) {k k' : κ} (h : k ≠ k') :
    get (delete m k) k' = get m k' := by
  induction m with
  | nil => simp [delete, get]
  | cons e rest ih =>
    obtain ⟨k₀, v₀⟩ := e
    by_cases h₀ : k₀ = k
    · subst h₀
      simpa [delete, List.filter_cons, get, h] using ih
    · by_cases h₁ : k₀ = k'
      · subst h₁; simp [delete, List.filter_cons, get, h₀]
      · simpa [delete, List.filter_cons, get, h₀, h₁] using ih

end JsMap

/-! ## Lemmas: requested keys -/

theorem requestedKeys_set_requested (m : JsMap String DownloadState) (k : String)
    (h : m.get k = none) : requestedKeys (m.set k .requested) = requestedKeys m ++ [k] := by
  induction m with
  | nil => simp [JsMap.set, requestedKeys]
  | cons e rest ih =>
    obtain ⟨k₀, v₀⟩ := e
    by_cases h₀ : k₀ = k
    · simp [JsMap.get, h₀] at h
    · have hr : JsMap.get rest k = none := by simpa [JsMap.get, h₀] using h
      have ih' := ih hr
      simp only [requestedKeys] at ih'
      by_cases hv : v₀ = .requested <;>
        simp [JsMap.set, requestedKeys, h₀, List.filter_cons, hv, ih']

theorem requestedKeys_length_set_downloaded (m : JsMap String DownloadState) (k : String) :
    ((requestedKeys (m.set k .downloaded)).length : Int) =
      (requestedKeys m).length - (if m.get k = some .requested then 1 else 0) := by
  induction m with
  | nil => simp [JsMap.set, JsMap.get, requestedKeys]
  | cons e rest ih =>
    obtain ⟨k₀, v₀⟩ := e
    by_cases h₀ : k₀ = k
    · by_cases hv : v₀ = .requested <;>
        simp [JsMap.set, JsMap.get, requestedKeys, h₀, List.filter_cons, hv]
    · simp only [requestedKeys, List.length_map] at ih
      by_cases hv : v₀ = .requested
      · simp [JsMap.set, JsMap.get, requestedKeys, h₀, List.filter_cons, hv]
        rw [ih]; ring
      · simp [JsMap.set, JsMap.get, requestedKeys, h₀, List.filter_cons, hv]
        rw [ih]

theorem mem_requestedKeys (m : JsMap String DownloadState) (k : String)
    (h : (JsMap.keys m).Nodup) : k ∈ requestedKeys m ↔ m.get k = some .requested := by
  induction m with
  | nil => simp [requestedKeys, JsMap.get]
  | cons e rest ih =>
    obtain ⟨k₀, v₀⟩ := e
    have hn : k₀ ∉ JsMap.keys rest ∧ (JsMap.keys rest).Nodup := by simpa [JsMap.keys] using h
    have ih' := ih hn.2
    simp only [requestedKeys] at ih'
    have hsub : ∀ x, x ∈ List.map Prod.fst (List.filter (fun e => decide (e.2 = DownloadState.requested)) rest) →
        x ∈ JsMap.keys rest := by
      intro x hx
      simp only [List.mem_map, List.mem_filter] at hx
      obtain ⟨a, ⟨ha, _⟩, rfl⟩ := hx
      exact List.mem_map_of_mem _ ha
    by_cases h₀ : k₀ = k
    · subst h₀
      by_cases hv : v₀ = .requested
      · simp [requestedKeys, JsMap.get, List.filter_cons, hv]
      · have : k₀ ∉ List.map Prod.fst (List.filter (fun e => decide (e.2 = DownloadState.requested)) rest) :=
          fun hx => hn.1 (hsub _ hx)
        simp only [requestedKeys, JsMap.get, List.filter_cons, hv, decide_False, if_true]
        simp [this, hv]
    · have hne : ¬ k = k₀ := fun h => h₀ h.symm
      by_cases hv : v₀ = .requested
      · simpa [requestedKeys, JsMap.get, List.filter_cons, hv, h₀, hne] using ih'
      · simpa [requestedKeys, JsMap.get, List.filter_cons, hv, h₀] using ih'

theorem requestedKeys_nodup (m : JsMap String DownloadState) (h : (JsMap.keys m).Nodup) :
    (requestedKeys m).Nodup := by
  unfold requestedKeys
  exact List.Nodup.sublist (List.Sublist.map _ (List.filter_sublist _)) h

/-! ## Lemmas: the tracker invariant -/

theorem foldl_preserves {α β : Type} (P : β → Prop) (f : β → α → β)
    (hf : ∀ b a, P b → P (f b a)) (l : List α) (b : β) (hb : P b) : P (l.foldl f b) := by
  induction l generalizing b with
  | nil => simpa using hb
  | cons a l ih => exact ih (f b a) (hf b a hb)

theorem trackerInv_call (c : Client) (call : Call) (h : TrackerInv c) :
    TrackerInv (c.call call) := h

theorem requestChunk_of_none (c : Client) (x y : Int)
    (h : JsMap.get c.chunkDownloadStates (chunkKey x y) = none) :
    requestChunk c x y =
      { c with chunkDownloadStates := JsMap.set c.chunkDownloadStates (chunkKey x y) .requested
               pendingChunks := c.pendingChunks + 1 } := by
  simp only [requestChunk, h]

theorem requestChunk_of_some (c : Client) (x y : Int) (v : DownloadState)
    (h : JsMap.get c.chunkDownloadStates (chunkKey x y) = some v) :
    requestChunk c x y = c := by
  simp only [requestChunk, h]

theorem trackerInv_requestChunk (c : Client) (x y : Int) (h : TrackerInv c) :
    TrackerInv (requestChunk c x y) := by
  cases hg : JsMap.get c.chunkDownloadStates (chunkKey x y) with
  | none =>
    rw [requestChunk_of_none c x y hg]
    refine ⟨JsMap.keys_set_nodup _ _ _ h.1, ?_⟩
    simp only [requestedKeys_set_requested _ _ hg, List.length_append, List.length_singleton,
      Nat.cast_add, Nat.cast_one, h.2]
  | some v =>
    rw [requestChunk_of_some c x y v hg]
    exact h

theorem trackerInv_sendViewportUpdate (r : Rect) (c : Client) (h : TrackerInv c) :
    TrackerInv (sendViewportUpdate r c) := by
  unfold sendViewportUpdate
  apply foldl_preserves TrackerInv
  · intro b y hb
    apply foldl_preserves TrackerInv
    · intro b' x hb'
      exact trackerInv_requestChunk b' x y hb'
    · exact hb
  · exact trackerInv_call _ _ h

theorem trackerInv_receiveChunk (data : List Nat) (c : Client) (info : ChunkInfo)
    (h : TrackerInv c) : TrackerInv (receiveChunk data c info) := by
  have key : TrackerInv
      { (if JsMap.get c.chunkDownloadStates (chunkKey info.position.x info.position.y) = some .requested then
            { c with pendingChunks := c.pendingChunks - 1 } else c) with
        chunkDownloadStates :=
          JsMap.set c.chunkDownloadStates (chunkKey info.position.x info.position.y) .downloaded } := by
    refine ⟨JsMap.keys_set_nodup _ _ _ h.1, ?_⟩
    have hlen := requestedKeys_length_set_downloaded c.chunkDownloadStates (chunkKey info.position.x info.position.y)
    by_cases hg : JsMap.get c.chunkDownloadStates (chunkKey info.position.x info.position.y) = some .requested
    · simp only [hg, if_true] at hlen ⊢
      rw [hlen, h.2]
    · simp only [hg, if_false] at hlen ⊢
      rw [hlen, h.2]; simp
  unfold receiveChunk
  by_cases hl : info.length > 0
  · by_cases hg : JsMap.get c.chunkDownloadStates (chunkKey info.position.x info.position.y) = some .requested
    · simp only [hg, if_true, hl] at key ⊢
      exact trackerInv_call _ _ key
    · simp only [hg, if_false, hl, if_true] at key ⊢
      exact trackerInv_call _ _ key
  · by_cases hg : JsMap.get c.chunkDownloadStates (chunkKey info.position.x info.position.y) = some .requested
    · simp only [hg, if_true, hl, if_false] at key ⊢
      exact key
    · simp only [hg, if_false, hl] at key ⊢
      exact key

theorem trackerInv_onChunks (event : ChunksEvent) (c : Client) (h : TrackerInv c) :
    TrackerInv (onChunks event c) :=
  foldl_preserves TrackerInv _ (fun b a hb => trackerInv_receiveChunk _ b a hb) _ c h

theorem trackerInv_trackerRun (c : Client) (events : List TrackerEvent) (h : TrackerInv c) :
    TrackerInv (trackerRun c events) := by
  apply foldl_preserves TrackerInv _ _ _ c h
  intro b e hb
  cases e with
  | viewportUpdate r => exact trackerInv_sendViewportUpdate r b hb
  | chunks event => exact trackerInv_onChunks event b hb

/-! ## Lemmas: decimal rendering -/

theorem digitValue_digitChar (d : Nat) (h : d < 10) : digitValue (Nat.digitChar d) = d := by
  interval_cases d <;> rfl

theorem digitChar_ne_comma (d : Nat) (h : d < 10) : Nat.digitChar d ≠ ',' := by
  interval_cases d <;> decide

theorem digitChar_ne_minus (d : Nat) (h : d < 10) : Nat.digitChar d ≠ '-' := by
  interval_cases d <;> decide

theorem toDigitsCore_eq (fuel : Nat) : ∀ (n : Nat) (ds : List Char), 0 < n → n < fuel →
    Nat.toDigitsCore 10 fuel n ds = ((Nat.digits 10 n).reverse.map Nat.digitChar) ++ ds := by
  induction fuel with
  | zero => intro n ds _ h; omega
  | succ fuel ih =>
    intro n ds hn hf
    have hd : Nat.digits 10 n = (n % 10) :: Nat.digits 10 (n / 10) :=
      Nat.digits_def' (by decide) hn
    by_cases h0 : n / 10 = 0
    · simp [Nat.toDigitsCore, h0, hd]
    · have h1 : 0 < n / 10 := Nat.pos_of_ne_zero h0
      have h2 : n / 10 < fuel := by omega
      simp [Nat.toDigitsCore, h0, hd, ih (n / 10) _ h1 h2]

theorem toDigits_eq (n : Nat) (hn : 0 < n) :
    Nat.toDigits 10 n = (Nat.digits 10 n).reverse.map Nat.digitChar := by
  simp [Nat.toDigits, toDigitsCore_eq (n + 1) n [] hn (Nat.lt_succ_self n)]

theorem toDigits_zero : Nat.toDigits 10 0 = ['0'] := by
  rfl

theorem readDigits_toDigits (n : Nat) : readDigits (Nat.toDigits 10 n) = n := by
  rcases Nat.eq_zero_or_pos n with h | h
  · subst h; rw [toDigits_zero]; decide
  · rw [toDigits_eq n h, readDigits, ← List.map_reverse, List.reverse_reverse, List.map_map]
    have : List.map (digitValue ∘ Nat.digitChar) (Nat.digits 10 n) = Nat.digits 10 n := by
      conv_rhs => rw [← List.map_id (Nat.digits 10 n)]
      apply List.map_congr_left
      intro d hd
      exact digitValue_digitChar d (Nat.digits_lt_base (by decide) hd)
    rw [this, Nat.ofDigits_digits]

theorem toDigits_injective (n m : Nat) (h : Nat.toDigits 10 n = Nat.toDigits 10 m) : n = m := by
  rw [← readDigits_toDigits n, ← readDigits_toDigits m, h]

theorem mem_toDigits (n : Nat) (ch : Char) (h : ch ∈ Nat.toDigits 10 n) :
    ∃ d, d < 10 ∧ ch = Nat.digitChar d := by
  rcases Nat.eq_zero_or_pos n with h0 | h0
  · subst h0
    rw [toDigits_zero] at h
    exact ⟨0, by decide, by simpa using h⟩
  · rw [toDigits_eq n h0] at h
    simp only [List.mem_map, List.mem_reverse] at h
    obtain ⟨d, hd, rfl⟩ := h
    exact ⟨d, Nat.digits_lt_base (by decide) hd, rfl⟩

theorem toDigits_ne_nil (n : Nat) : Nat.toDigits 10 n ≠ [] := by
  intro h
  rcases Nat.eq_zero_or_pos n with h0 | h0
  · subst h0; rw [toDigits_zero] at h; simp at h
  · rw [toDigits_eq n h0] at h
    have hnil : Nat.digits 10 n = [] := by simpa using h
    exact absurd (Nat.digits_eq_nil_iff_eq_zero.mp hnil) (by omega)

theorem toString_int_data (x : Int) : (toString x).data = intChars x := by
  cases x with
  | ofNat m => rfl
  | negSucc m => rfl

theorem comma_not_mem_intChars (x : Int) : ',' ∉ intChars x := by
  intro h
  cases x with
  | ofNat m =>
    obtain ⟨d, hd, he⟩ := mem_toDigits m _ h
    exact digitChar_ne_comma d hd he.symm
  | negSucc m =>
    simp only [intChars, List.mem_cons] at h
    rcases h with h | h
    · exact absurd h (by decide)
    · obtain ⟨d, hd, he⟩ := mem_toDigits _ _ h
      exact digitChar_ne_comma d hd he.symm

theorem intChars_injective (x y : Int) (h : intChars x = intChars y) : x = y := by
  have headDigit : ∀ (m k : Nat), Nat.toDigits 10 m ≠ '-' :: Nat.toDigits 10 (k + 1) := by
    intro m k he
    have hm : '-' ∈ Nat.toDigits 10 m := by rw [he]; exact List.mem_cons_self _ _
    obtain ⟨d, hd, hc⟩ := mem_toDigits m _ hm
    exact digitChar_ne_minus d hd hc.symm
  cases x with
  | ofNat m =>
    cases y with
    | ofNat k => rw [toDigits_injective m k h]
    | negSucc k => exact absurd h (headDigit m k)
  | negSucc m =>
    cases y with
    | ofNat k => exact absurd h.symm (headDigit k m)
    | negSucc k =>
      simp only [intChars, List.cons.injEq, true_and] at h
      have := toDigits_injective _ _ h
      have hmk : m = k := by omega
      rw [hmk]

theorem append_sep_inj {α : Type} (sep : α) :
    ∀ (a b c d : List α), sep ∉ a → sep ∉ c → a ++ sep :: b = c ++ sep :: d → a = c ∧ b = d := by
  intro a
  induction a with
  | nil =>
    intro b c d _ hc h
    cases c with
    | nil => simpa using h
    | cons z c =>
      simp only [List.nil_append, List.cons_append, List.cons.injEq] at h
      exact absurd (h.1 ▸ List.mem_cons_self _ _) hc
  | cons w a ih =>
    intro b c d ha hc h
    cases c with
    | nil =>
      simp only [List.nil_append, List.cons_append, List.cons.injEq] at h
      exact absurd (h.1 ▸ List.mem_cons_self _ _ : sep ∈ w :: a) ha
    | cons z c =>
      simp only [List.cons_append, List.cons.injEq] at h
      have ha' : sep ∉ a := fun hm => ha (List.mem_cons_of_mem _ hm)
      have hc' : sep ∉ c := fun hm => hc (List.mem_cons_of_mem _ hm)
      obtain ⟨h1, h2⟩ := ih b c d ha' hc' h.2
      exact ⟨by rw [h.1, h1], h2⟩

theorem chunkKey_data (x y : Int) :
    (chunkKey x y).data = '(' :: (intChars x ++ ',' :: (intChars y ++ [')'])) := by
  simp [chunkKey, String.data_append, toString_int_data]

theorem chunkKey_injective (x₁ y₁ x₂ y₂ : Int) (h : chunkKey x₁ y₁ = chunkKey x₂ y₂) :
    x₁ = x₂ ∧ y₁ = y₂ := by
  have hd := congrArg String.data h
  rw [chunkKey_data, chunkKey_data] at hd
  simp only [List.cons.injEq, true_and] at hd
  obtain ⟨hx, hy⟩ := append_sep_inj ',' _ _ _ _ (comma_not_mem_intChars x₁)
    (comma_not_mem_intChars x₂) hd
  exact ⟨intChars_injective _ _ hx, intChars_injective _ _ (List.append_cancel_right hy)⟩

/-! ## Lemmas: the visible rectangle -/

theorem mem_intRange (lo hi x : Int) : x ∈ intRange lo hi ↔ lo ≤ x ∧ x < hi := by
  simp only [intRange, List.mem_map, List.mem_range]
  constructor
  · rintro ⟨i, hi', rfl⟩
    omega
  · rintro ⟨h1, h2⟩
    exact ⟨(x - lo).toNat, by omega, by omega⟩

theorem nodup_intRange (lo hi : Int) : (intRange lo hi).Nodup := by
  unfold intRange
  refine List.Nodup.map ?_ (List.nodup_range _)
  intro a b h
  simpa using h

theorem length_intRange (lo hi : Int) : (intRange lo hi).length = (hi - lo).toNat := by
  simp [intRange]

theorem mem_rectPositions (r : Rect) (x y : Int) :
    (x, y) ∈ rectPositions r ↔ (r.left ≤ x ∧ x < r.right) ∧ (r.top ≤ y ∧ y < r.bottom) := by
  simp only [rectPositions, List.mem_flatMap, List.mem_map, Prod.mk.injEq, mem_intRange]
  constructor
  · rintro ⟨y', hy, x', hx, rfl, rfl⟩
    exact ⟨hx, hy⟩
  · rintro ⟨hx, hy⟩
    exact ⟨y, hy, x, hx, rfl, rfl⟩

theorem nodup_rectPositions (r : Rect) : (rectPositions r).Nodup := by
  unfold rectPositions
  rw [List.nodup_flatMap]
  constructor
  · intro y _
    refine List.Nodup.map ?_ (nodup_intRange _ _)
    intro a b h
    simpa using h
  · refine List.Pairwise.imp_of_mem ?_ (nodup_intRange r.top r.bottom)
    intro y y' _ _ hne
    simp only [Function.onFun, List.Disjoint, List.mem_map]
    rintro ⟨a, b⟩ ⟨x, _, h1⟩ ⟨x', _, h2⟩
    simp only [Prod.mk.injEq] at h1 h2
    exact hne (h1.2.trans h2.2.symm)

theorem length_rectPositions (r : Rect) :
    (rectPositions r).length = (r.right - r.left).toNat * (r.bottom - r.top).toNat := by
  unfold rectPositions
  have : ∀ ys : List Int,
      (ys.flatMap (fun y => (intRange r.left r.right).map (fun x => (x, y)))).length
        = (r.right - r.left).toNat * ys.length := by
    intro ys
    induction ys with
    | nil => simp
    | cons y ys ih =>
      simp only [List.flatMap_cons, List.length_append, List.length_map, length_intRange, ih,
        List.length_cons]
      ring
  rw [this, length_intRange]

/-! ## Lemmas: `sendViewportUpdate` -/

theorem sendViewportUpdate_eq (r : Rect) (c : Client) :
    sendViewportUpdate r c = requestChunks (c.call (.sendViewport r)) (rectPositions r) := by
  unfold sendViewportUpdate requestChunks rectPositions
  generalize c.call (.sendViewport r) = c₁
  induction intRange r.top r.bottom generalizing c₁ with
  | nil => rfl
  | cons y ys ih =>
    simp only [List.foldl_cons, List.flatMap_cons, List.foldl_append, List.foldl_map]
    exact ih _

theorem requestChunk_get (c : Client) (x y : Int) (key : String) :
    JsMap.get (requestChunk c x y).chunkDownloadStates key =
      if JsMap.get c.chunkDownloadStates key = none ∧ key = chunkKey x y then some .requested
      else JsMap.get c.chunkDownloadStates key := by
  cases hg : JsMap.get c.chunkDownloadStates (chunkKey x y) with
  | none =>
    rw [requestChunk_of_none c x y hg]
    simp only [JsMap.get_set]
    by_cases hk : chunkKey x y = key
    · subst hk; simp [hg]
    · have : ¬ key = chunkKey x y := fun h => hk h.symm
      simp [hk, this]
  | some v =>
    rw [requestChunk_of_some c x y v hg]
    by_cases hk : key = chunkKey x y
    · subst hk; simp [hg]
    · simp [hk]

theorem requestChunk_pendingChunks (c : Client) (x y : Int) :
    (requestChunk c x y).pendingChunks =
      c.pendingChunks + if JsMap.get c.chunkDownloadStates (chunkKey x y) = none then 1 else 0 := by
  cases hg : JsMap.get c.chunkDownloadStates (chunkKey x y) with
  | none => rw [requestChunk_of_none c x y hg]; simp
  | some v => rw [requestChunk_of_some c x y v hg]; simp

theorem requestChunk_calls (c : Client) (x y : Int) : (requestChunk c x y).calls = c.calls := by
  cases hg : JsMap.get c.chunkDownloadStates (chunkKey x y) with
  | none => rw [requestChunk_of_none c x y hg]
  | some v => rw [requestChunk_of_some c x y v hg]

theorem requestChunk_wall (c : Client) (x y : Int) : (requestChunk c x y).wall = c.wall := by
  cases hg : JsMap.get c.chunkDownloadStates (chunkKey x y) with
  | none => rw [requestChunk_of_none c x y hg]
  | some v => rw [requestChunk_of_some c x y v hg]

theorem requestChunks_get (ps : List (Int × Int)) (c : Client) (key : String) :
    JsMap.get (requestChunks c ps).chunkDownloadStates key =
      if JsMap.get c.chunkDownloadStates key = none ∧ key ∈ ps.map positionKey then
        some .requested
      else JsMap.get c.chunkDownloadStates key := by
  induction ps generalizing c with
  | nil => simp [requestChunks]
  | cons p ps ih =>
    have hstep : requestChunks c (p :: ps) = requestChunks (requestChunk c p.1 p.2) ps := rfl
    rw [hstep, ih]
    have hg := requestChunk_get c p.1 p.2 key
    simp only [List.map_cons, List.mem_cons]
    by_cases h1 : JsMap.get c.chunkDownloadStates key = none
    · by_cases h2 : key = chunkKey p.1 p.2
      · rw [if_pos ⟨h1, h2⟩] at hg
        rw [hg, if_neg (fun h => by simp at h), if_pos ⟨h1, Or.inl h2⟩]
      · rw [if_neg (fun h => h2 h.2)] at hg
        have h2' : ¬ key = positionKey p := h2
        rw [hg]
        simp only [h1, h2', true_and, false_or]
    · rw [if_neg (fun h => h1 h.1)] at hg
      rw [hg, if_neg (fun h => h1 h.1), if_neg (fun h => h1 h.1)]

theorem requestChunks_calls (ps : List (Int × Int)) (c : Client) :
    (requestChunks c ps).calls = c.calls := by
  induction ps generalizing c with
  | nil => rfl
  | cons p ps ih =>
    have hstep : requestChunks c (p :: ps) = requestChunks (requestChunk c p.1 p.2) ps := rfl
    rw [hstep, ih, requestChunk_calls]

theorem requestChunks_wall (ps : List (Int × Int)) (c : Client) :
    (requestChunks c ps).wall = c.wall := by
  induction ps generalizing c with
  | nil => rfl
  | cons p ps ih =>
    have hstep : requestChunks c (p :: ps) = requestChunks (requestChunk c p.1 p.2) ps := rfl
    rw [hstep, ih, requestChunk_wall]

theorem requestChunks_pendingChunks (ps : List (Int × Int)) (c : Client)
    (hnd : (ps.map positionKey).Nodup) :
    (requestChunks c ps).pendingChunks =
      c.pendingChunks +
        ((ps.filter (fun p => JsMap.get c.chunkDownloadStates (positionKey p) = none)).length : Int) := by
  induction ps generalizing c with
  | nil => simp [requestChunks]
  | cons p ps ih =>
    have hstep : requestChunks c (p :: ps) = requestChunks (requestChunk c p.1 p.2) ps := rfl
    have hn : positionKey p ∉ ps.map positionKey ∧ (ps.map positionKey).Nodup := by
      simpa using hnd
    rw [hstep, ih _ hn.2, requestChunk_pendingChunks]
    have hfilter :
        ps.filter (fun q => JsMap.get (requestChunk c p.1 p.2).chunkDownloadStates (positionKey q) = none)
          = ps.filter (fun q => JsMap.get c.chunkDownloadStates (positionKey q) = none) := by
      apply List.filter_congr
      intro q hq
      have hne : positionKey q ≠ chunkKey p.1 p.2 := by
        intro he
        have hm : positionKey q ∈ ps.map positionKey := List.mem_map_of_mem positionKey hq
        rw [he] at hm
        exact hn.1 hm
      rw [requestChunk_get]
      simp [hne]
    rw [hfilter, List.filter_cons]
    by_cases hg : JsMap.get c.chunkDownloadStates (chunkKey p.1 p.2) = none
    · have : JsMap.get c.chunkDownloadStates (positionKey p) = none := hg
      simp [hg, this]; ring
    · have : ¬ JsMap.get c.chunkDownloadStates (positionKey p) = none := hg
      simp [hg, this]

theorem positionKey_injective : Function.Injective positionKey := by
  rintro ⟨x₁, y₁⟩ ⟨x₂, y₂⟩ h
  obtain ⟨hx, hy⟩ := chunkKey_injective x₁ y₁ x₂ y₂ h
  rw [hx, hy]

theorem nodup_rectKeys (r : Rect) : ((rectPositions r).map positionKey).Nodup :=
  List.Nodup.map positionKey_injective (nodup_rectPositions r)

theorem rectPositions_toFinset (r : Rect) :
    (rectPositions r).toFinset = Finset.Ico r.left r.right ×ˢ Finset.Ico r.top r.bottom := by
  ext ⟨x, y⟩
  simp [mem_rectPositions]

theorem requestChunks_of_tracked (ps : List (Int × Int)) (c : Client)
    (h : ∀ p ∈ ps, JsMap.get c.chunkDownloadStates (positionKey p) ≠ none) :
    requestChunks c ps = c := by
  induction ps with
  | nil => rfl
  | cons p ps ih =>
    have hstep : requestChunks c (p :: ps) = requestChunks (requestChunk c p.1 p.2) ps := rfl
    cases hv : JsMap.get c.chunkDownloadStates (chunkKey p.1 p.2) with
    | none => exact absurd hv (h p (List.mem_cons_self _ _))
    | some v =>
      rw [hstep, requestChunk_of_some c p.1 p.2 v hv]
      exact ih (fun q hq => h q (List.mem_cons_of_mem _ hq))

/-! ## Lemmas: the chunk store -/

theorem getOrCreateChunk_of_some (wall : Wall) (x y : Int) (chunk : Chunk)
    (h : JsMap.get wall.chunks (chunkKey x y) = some chunk) :
    wall.getOrCreateChunk x y = (chunk, wall) := by
  simp only [Wall.getOrCreateChunk, h]

theorem getOrCreateChunk_of_none (wall : Wall) (x y : Int)
    (h : JsMap.get wall.chunks (chunkKey x y) = none) :
    wall.getOrCreateChunk x y =
      (Chunk.new wall.chunkSize,
        { wall with chunks := JsMap.set wall.chunks (chunkKey x y) (Chunk.new wall.chunkSize) }) := by
  simp only [Wall.getOrCreateChunk, h]

/-! ## Lemmas: the `"chunks"` listener -/

theorem receiveChunk_eq (data : List Nat) (c : Client) (info : ChunkInfo) :
    receiveChunk data c info =
      { c with
        pendingChunks := c.pendingChunks -
          (if JsMap.get c.chunkDownloadStates (infoKey info) = some .requested then 1 else 0)
        chunkDownloadStates := JsMap.set c.chunkDownloadStates (infoKey info) .downloaded
        calls := c.calls ++ (decodeCall data info).toList } := by
  unfold receiveChunk decodeCall infoKey Client.call blobSlice
  by_cases hl : info.length > 0 <;>
    by_cases hg : JsMap.get c.chunkDownloadStates (chunkKey info.position.x info.position.y) = some .requested <;>
    simp [hl, hg]

theorem receiveChunk_get (data : List Nat) (c : Client) (info : ChunkInfo) (key : String) :
    JsMap.get (receiveChunk data c info).chunkDownloadStates key =
      if key = infoKey info then some .downloaded else JsMap.get c.chunkDownloadStates key := by
  rw [receiveChunk_eq]
  simp only [JsMap.get_set]
  by_cases h : key = infoKey info
  · simp [h]
  · have : ¬ infoKey info = key := fun h' => h h'.symm
    simp [h, this]

theorem onChunks_cons (data : List Nat) (c : Client) (info : ChunkInfo) (infos : List ChunkInfo) :
    onChunks { chunkInfo := info :: infos, chunkData := data } c =
      onChunks { chunkInfo := infos, chunkData := data } (receiveChunk data c info) := rfl

theorem onChunks_get (event : ChunksEvent) (c : Client) (key : String) :
    JsMap.get (onChunks event c).chunkDownloadStates key =
      if key ∈ event.chunkInfo.map infoKey then some .downloaded
      else JsMap.get c.chunkDownloadStates key := by
  obtain ⟨infos, data⟩ := event
  induction infos generalizing c with
  | nil => simp [onChunks]
  | cons info infos ih =>
    rw [onChunks_cons, ih, receiveChunk_get]
    simp only [List.map_cons, List.mem_cons]
    by_cases h1 : key ∈ infos.map infoKey
    · simp [h1]
    · by_cases h2 : key = infoKey info <;> simp [h1, h2]

theorem onChunks_wall (event : ChunksEvent) (c : Client) : (onChunks event c).wall = c.wall := by
  obtain ⟨infos, data⟩ := event
  induction infos generalizing c with
  | nil => rfl
  | cons info infos ih => rw [onChunks_cons, ih, receiveChunk_eq]

theorem onChunks_calls (event : ChunksEvent) (c : Client) :
    (onChunks event c).calls =
      c.calls ++ event.chunkInfo.filterMap (decodeCall event.chunkData) := by
  obtain ⟨infos, data⟩ := event
  induction infos generalizing c with
  | nil => simp [onChunks]
  | cons info infos ih =>
    rw [onChunks_cons, ih, receiveChunk_eq]
    cases hd : decodeCall data info <;> simp [List.filterMap_cons, hd]

theorem card_filter_insert_requested (m : JsMap String DownloadState) (k : String)
    (s : Finset String) :
    ((insert k s).filter (fun key => JsMap.get m key = some .requested)).card =
      (s.filter (fun key => JsMap.get (JsMap.set m k .downloaded) key = some .requested)).card +
        (if JsMap.get m k = some .requested then 1 else 0) := by
  have hfilter :
      s.filter (fun key => JsMap.get (JsMap.set m k .downloaded) key = some .requested)
        = (s.filter (fun key => JsMap.get m key = some .requested)).erase k := by
    ext key
    simp only [Finset.mem_filter, Finset.mem_erase, JsMap.get_set]
    by_cases hk : k = key
    · subst hk; simp
    · have : ¬ key = k := fun h => hk h.symm
      simp [hk, this]
  rw [hfilter, Finset.filter_insert]
  by_cases hg : JsMap.get m k = some .requested
  · simp only [hg, if_true]
    rw [← Finset.insert_erase (Finset.mem_insert_self k
        (s.filter (fun key => JsMap.get m key = some .requested))), Finset.erase_insert_eq_erase,
      Finset.card_insert_of_not_mem (Finset.not_mem_erase _ _)]
  · simp only [hg, if_false, add_zero]
    rw [Finset.erase_eq_of_not_mem]
    simp [hg]

theorem onChunks_pendingChunks (event : ChunksEvent) (c : Client) :
    (onChunks event c).pendingChunks =
      c.pendingChunks -
        (((event.chunkInfo.map infoKey).toFinset.filter
            (fun key => JsMap.get c.chunkDownloadStates key = some .requested)).card : Int) := by
  obtain ⟨infos, data⟩ := event
  induction infos generalizing c with
  | nil => simp [onChunks]
  | cons info infos ih =>
    rw [onChunks_cons, ih]
    simp only [List.map_cons, List.toFinset_cons]
    rw [card_filter_insert_requested, receiveChunk_eq]
    push_cast
    split <;> ring

/-! ## Lemmas: tracked keys stay tracked -/

theorem sendViewportUpdate_get (r : Rect) (c : Client) (key : String) :
    JsMap.get (sendViewportUpdate r c).chunkDownloadStates key =
      if JsMap.get c.chunkDownloadStates key = none ∧ key ∈ (rectPositions r).map positionKey then
        some .requested
      else JsMap.get c.chunkDownloadStates key := by
  rw [sendViewportUpdate_eq, requestChunks_get]
  rfl

theorem trackerStep_tracked (c : Client) (e : TrackerEvent) (key : String) (v : DownloadState)
    (h : JsMap.get c.chunkDownloadStates key = some v) :
    JsMap.get (trackerStep c e).chunkDownloadStates key = some v ∨
      JsMap.get (trackerStep c e).chunkDownloadStates key = some .downloaded := by
  cases e with
  | viewportUpdate r =>
    left
    show JsMap.get (sendViewportUpdate r c).chunkDownloadStates key = some v
    rw [sendViewportUpdate_get, if_neg (fun hn => by rw [h] at hn; simp at hn), h]
  | chunks event =>
    show JsMap.get (onChunks event c).chunkDownloadStates key = some v ∨
      JsMap.get (onChunks event c).chunkDownloadStates key = some .downloaded
    rw [onChunks_get]
    by_cases hm : key ∈ event.chunkInfo.map infoKey
    · right; rw [if_pos hm]
    · left; rw [if_neg hm, h]

theorem trackerRun_cons (c : Client) (e : TrackerEvent) (es : List TrackerEvent) :
    trackerRun c (e :: es) = trackerRun (trackerStep c e) es := rfl

theorem trackerRun_tracked (key : String) (events : List TrackerEvent) :
    ∀ (c : Client) (v : DownloadState), JsMap.get c.chunkDownloadStates key = some v →
      requestTransitions key c events = 0 ∧
        (JsMap.get (trackerRun c events).chunkDownloadStates key = some v ∨
          JsMap.get (trackerRun c events).chunkDownloadStates key = some .downloaded) := by
  induction events with
  | nil => intro c v h; exact ⟨rfl, Or.inl h⟩
  | cons e es ih =>
    intro c v h
    rw [trackerRun_cons]
    have hstep := trackerStep_tracked c e key v h
    have hzero : ¬ (JsMap.get c.chunkDownloadStates key ≠ some .requested ∧
        JsMap.get (trackerStep c e).chunkDownloadStates key = some .requested) := by
      rintro ⟨h1, h2⟩
      rcases hstep with h3 | h3
      · rw [h3] at h2; rw [h, h2] at h1; exact h1 rfl
      · rw [h3] at h2; simp at h2
    simp only [requestTransitions, if_neg hzero, zero_add]
    rcases hstep with h3 | h3
    · exact ih _ v h3
    · obtain ⟨h4, h5⟩ := ih _ .downloaded h3
      exact ⟨h4, Or.inr (h5.elim id id)⟩

theorem requestTransitions_le_one (key : String) (events : List TrackerEvent) :
    ∀ c : Client, requestTransitions key c events ≤ 1 := by
  induction events with
  | nil => intro c; simp [requestTransitions]
  | cons e es ih =>
    intro c
    simp only [requestTransitions]
    by_cases h : JsMap.get (trackerStep c e).chunkDownloadStates key = some .requested
    · rw [(trackerRun_tracked key es _ _ h).1]
      split <;> simp
    · rw [if_neg (fun hh => h hh.2), zero_add]
      exact ih _

/-! ## Lemmas: the `"wallEvent"` listener -/

theorem onWallEvent_own (duplicates : DuplicatePolicy) (engine : BrushEngine)
    (c : Client) (ev : WallEvent)
    (h : ev.sessionId = c.sessionId) : onWallEvent duplicates engine c ev = c := by
  simp [onWallEvent, h]

theorem onWallEvent_unknown (duplicates : DuplicatePolicy) (engine : BrushEngine)
    (c : Client) (ev : WallEvent)
    (hS : ev.sessionId ≠ c.sessionId)
    (hu : c.wall.onlineUsers.getUser ev.sessionId = none)
    (hk : ∀ nickname brush, ev.kind ≠ .join nickname brush) :
    onWallEvent duplicates engine c ev = c.call (.warn ev) := by
  obtain ⟨S, kind⟩ := ev
  cases kind with
  | join nickname brush => exact absurd rfl (hk nickname brush)
  | leave => simp only [onWallEvent, hS, ne_eq, not_false_eq_true, if_true, hu]
  | cursor position => simp only [onWallEvent, hS, ne_eq, not_false_eq_true, if_true, hu]
  | setBrush brush => simp only [onWallEvent, hS, ne_eq, not_false_eq_true, if_true, hu]
  | plot points => simp only [onWallEvent, hS, ne_eq, not_false_eq_true, if_true, hu]

theorem onWallEvent_leave (duplicates : DuplicatePolicy) (engine : BrushEngine)
    (c : Client) (S : SessionId) (user : User)
    (hS : S ≠ c.sessionId) (hu : c.wall.onlineUsers.getUser S = some user) :
    onWallEvent duplicates engine c { sessionId := S, kind := .leave } =
      match user.reticle with
      | some reticle =>
        { c with
          calls := c.calls ++ [.removeReticle reticle.id]
          reticles := c.reticles.filter (fun r => r ≠ reticle.id)
          wall.onlineUsers := c.wall.onlineUsers.removeUser S }
      | none => { c with wall.onlineUsers := c.wall.onlineUsers.removeUser S } := by
  simp only [onWallEvent, hS, ne_eq, not_false_eq_true, if_true, hu]
  cases user.reticle <;> rfl

theorem onWallEvent_cursor_first (duplicates : DuplicatePolicy) (engine : BrushEngine)
    (c : Client) (S : SessionId) (user : User)
    (position : Point)
    (hS : S ≠ c.sessionId) (hu : c.wall.onlineUsers.getUser S = some user)
    (hr : user.reticle = none) :
    onWallEvent duplicates engine c { sessionId := S, kind := .cursor position } =
      { c with
        calls := c.calls ++ [.newReticleCursor c.nextReticle user.nickname,
          .addReticle c.nextReticle]
        nextReticle := c.nextReticle + 1
        reticles := c.reticles ++ [c.nextReticle]
        wall.onlineUsers.users := c.wall.onlineUsers.users.set S
          { user with reticle := some { id := c.nextReticle, nickname := user.nickname,
                                        cursor := some (position.x, position.y) } } } := by
  simp only [onWallEvent, hS, ne_eq, not_false_eq_true, if_true, hu, hr, Client.call,
    ReticleCursor.setCursor, addReticle, List.append_assoc, List.singleton_append]

theorem onWallEvent_cursor_again (duplicates : DuplicatePolicy) (engine : BrushEngine)
    (c : Client) (S : SessionId)
    (user : User) (reticle : ReticleCursor) (position : Point)
    (hS : S ≠ c.sessionId) (hu : c.wall.onlineUsers.getUser S = some user)
    (hr : user.reticle = some reticle) :
    onWallEvent duplicates engine c { sessionId := S, kind := .cursor position } =
      { c with
        wall.onlineUsers.users := c.wall.onlineUsers.users.set S
          { user with reticle := some { reticle with cursor := some (position.x, position.y) } } } := by
  simp only [onWallEvent, hS, ne_eq, not_false_eq_true, if_true, hu, hr, ReticleCursor.setCursor]

theorem addUser_eq_some (duplicates : DuplicatePolicy) (o : OnlineUsers) (S : SessionId)
    (nickname brush : String) (h : duplicates = .replace ∨ o.getUser S = none) :
    o.addUser duplicates S nickname brush =
      some { users := o.users.set S { nickname := nickname, brush := brush, reticle := none } } := by
  unfold OnlineUsers.addUser
  rcases h with h | h
  · subst h
    cases JsMap.get o.users S <;> rfl
  · have h' : JsMap.get o.users S = none := h
    rw [h']

theorem addUser_eq_none (o : OnlineUsers) (S : SessionId) (nickname brush : String) (user : User)
    (h : o.getUser S = some user) : o.addUser .fail S nickname brush = none := by
  unfold OnlineUsers.addUser
  have h' : JsMap.get o.users S = some user := h
  rw [h']

theorem onWallEvent_join (duplicates : DuplicatePolicy) (engine : BrushEngine) (c : Client)
    (S : SessionId) (nickname brush : String) (hS : S ≠ c.sessionId)
    (h : duplicates = .replace ∨ c.wall.onlineUsers.getUser S = none) :
    onWallEvent duplicates engine c { sessionId := S, kind := .join nickname brush } =
      { c with
        wall.onlineUsers.users :=
          c.wall.onlineUsers.users.set S
            { nickname := nickname, brush := brush, reticle := none } } := by
  simp only [onWallEvent, hS, ne_eq, not_false_eq_true, if_true,
    addUser_eq_some duplicates c.wall.onlineUsers S nickname brush h, Option.map_some',
    OnlineUsers.getUser, JsMap.get_set_self]

theorem onWallEvent_join_fail (engine : BrushEngine) (c : Client) (S : SessionId)
    (nickname brush : String) (user : User) (hS : S ≠ c.sessionId)
    (hu : c.wall.onlineUsers.getUser S = some user) :
    onWallEvent .fail engine c { sessionId := S, kind := .join nickname brush } = c := by
  simp only [onWallEvent, hS, ne_eq, not_false_eq_true, if_true,
    addUser_eq_none c.wall.onlineUsers S nickname brush user hu, Option.map_none']

theorem onWallEvent_join_cases (duplicates : DuplicatePolicy) (engine : BrushEngine)
    (c : Client) (S : SessionId) (nickname brush : String) (hS : S ≠ c.sessionId) :
    onWallEvent duplicates engine c { sessionId := S, kind := .join nickname brush } = c ∨
      onWallEvent duplicates engine c { sessionId := S, kind := .join nickname brush } =
        { c with
          wall.onlineUsers.users :=
            c.wall.onlineUsers.users.set S
              { nickname := nickname, brush := brush, reticle := none } } := by
  cases duplicates with
  | replace => exact Or.inr (onWallEvent_join .replace engine c S nickname brush hS (Or.inl rfl))
  | fail =>
    cases hu : c.wall.onlineUsers.getUser S with
    | none => exact Or.inr (onWallEvent_join .fail engine c S nickname brush hS (Or.inr hu))
    | some user => exact Or.inl (onWallEvent_join_fail engine c S nickname brush user hS hu)

theorem onWallEvent_sessionId (duplicates : DuplicatePolicy) (engine : BrushEngine)
    (c : Client) (ev : WallEvent) :
    (onWallEvent duplicates engine c ev).sessionId = c.sessionId := by
  obtain ⟨S, kind⟩ := ev
  by_cases hS : S = c.sessionId
  · rw [onWallEvent_own duplicates engine c _ hS]
  · have plotId : ∀ (user : User) (points : List Point) (c' : Client),
        (points.foldl (fun c p =>
            { c.call (.renderBrushToChunks S user.brush p.x p.y) with
                wall.chunks := engine user c.wall p.x p.y }) c').sessionId = c'.sessionId := by
      intro user points
      induction points with
      | nil => intro c'; rfl
      | cons p ps ih => intro c'; rw [List.foldl_cons, ih]; rfl
    cases kind with
    | join nickname brush =>
      rcases onWallEvent_join_cases duplicates engine c S nickname brush hS with h | h <;> rw [h]
    | leave =>
      cases hu : c.wall.onlineUsers.getUser S with
      | none => rw [onWallEvent_unknown duplicates engine c _ hS hu (by intro _ _ h; cases h)]; rfl
      | some user =>
        rw [onWallEvent_leave duplicates engine c S user hS hu]
        cases user.reticle <;> rfl
    | cursor position =>
      cases hu : c.wall.onlineUsers.getUser S with
      | none => rw [onWallEvent_unknown duplicates engine c _ hS hu (by intro _ _ h; cases h)]; rfl
      | some user =>
        cases hr : user.reticle with
        | none => rw [onWallEvent_cursor_first duplicates engine c S user position hS hu hr]
        | some reticle => rw [onWallEvent_cursor_again duplicates engine c S user reticle position hS hu hr]
    | setBrush brush =>
      cases hu : c.wall.onlineUsers.getUser S with
      | none => rw [onWallEvent_unknown duplicates engine c _ hS hu (by intro _ _ h; cases h)]; rfl
      | some user => simp only [onWallEvent, hS, ne_eq, not_false_eq_true, if_true, hu]
    | plot points =>
      cases hu : c.wall.onlineUsers.getUser S with
      | none => rw [onWallEvent_unknown duplicates engine c _ hS hu (by intro _ _ h; cases h)]; rfl
      | some user =>
        simp only [onWallEvent, hS, ne_eq, not_false_eq_true, if_true, hu]
        exact plotId user points c

theorem foldl_cursor_last (ps : List Point) (p : Point) :
    ps.foldl (fun (_ : Option (Coord × Coord)) q => some (q.x, q.y)) (some (p.x, p.y)) =
      some (((p :: ps).getLast (List.cons_ne_nil p ps)).x,
        ((p :: ps).getLast (List.cons_ne_nil p ps)).y) := by
  induction ps generalizing p with
  | nil => rfl
  | cons q qs ih =>
    rw [List.foldl_cons, ih q]
    simp [List.getLast_cons]

theorem runWallEvents_cursor_again (duplicates : DuplicatePolicy) (engine : BrushEngine)
    (S : SessionId) (ps : List Point) :
    ∀ (c : Client) (user : User) (reticle : ReticleCursor),
      S ≠ c.sessionId → c.wall.onlineUsers.getUser S = some user →
      user.reticle = some reticle →
      (runWallEvents duplicates engine c (cursorEvents S ps)).calls = c.calls ∧
      (runWallEvents duplicates engine c (cursorEvents S ps)).nextReticle = c.nextReticle ∧
      (runWallEvents duplicates engine c (cursorEvents S ps)).reticles = c.reticles ∧
      (runWallEvents duplicates engine c (cursorEvents S ps)).sessionId = c.sessionId ∧
      (runWallEvents duplicates engine c (cursorEvents S ps)).wall.onlineUsers.getUser S =
        some { user with
          reticle := some { reticle with
            cursor := ps.foldl (fun _ q => some (q.x, q.y)) reticle.cursor } } := by
  induction ps with
  | nil =>
    intro c user reticle _ hu hr
    refine ⟨rfl, rfl, rfl, rfl, ?_⟩
    show c.wall.onlineUsers.getUser S = _
    rw [hu]
    cases user
    simp only at hr
    subst hr
    rfl
  | cons q qs ih =>
    intro c user reticle hS hu hr
    have hstep : runWallEvents duplicates engine c (cursorEvents S (q :: qs)) =
        runWallEvents duplicates engine (onWallEvent duplicates engine c { sessionId := S, kind := .cursor q })
          (cursorEvents S qs) := rfl
    rw [hstep, onWallEvent_cursor_again duplicates engine c S user reticle q hS hu hr]
    obtain ⟨h1, h2, h3, h4, h5⟩ := ih
      { c with
        wall.onlineUsers.users := c.wall.onlineUsers.users.set S
          { user with reticle := some { reticle with cursor := some (q.x, q.y) } } }
      { user with reticle := some { reticle with cursor := some (q.x, q.y) } }
      { reticle with cursor := some (q.x, q.y) } hS
      (by simp only [OnlineUsers.getUser, JsMap.get_set_self]) rfl
    exact ⟨h1, h2, h3, h4, h5⟩

theorem runWallEvents_unknown (duplicates : DuplicatePolicy) (engine : BrushEngine)
    (S : SessionId) (events : List WallEvent) :
    ∀ c : Client, S ≠ c.sessionId → c.wall.onlineUsers.getUser S = none →
      (∀ ev ∈ events, ev.sessionId = S ∧ ∀ nickname brush, ev.kind ≠ .join nickname brush) →
      runWallEvents duplicates engine c events = { c with calls := c.calls ++ events.map .warn } := by
  induction events with
  | nil => intro c _ _ _; simp [runWallEvents]
  | cons ev evs ih =>
    intro c hS hu hev
    obtain ⟨hid, hk⟩ := hev ev (List.mem_cons_self _ _)
    have hstep : runWallEvents duplicates engine c (ev :: evs) =
        runWallEvents duplicates engine (onWallEvent duplicates engine c ev) evs := rfl
    rw [hstep, onWallEvent_unknown duplicates engine c ev (by rw [hid]; exact hS) (by rw [hid]; exact hu) hk,
      ih (c.call (.warn ev)) hS hu (fun e he => hev e (List.mem_cons_of_mem _ he))]
    simp [Client.call]

theorem getUser_after_leave (duplicates : DuplicatePolicy) (engine : BrushEngine)
    (c : Client) (S : SessionId)
    (hS : S ≠ c.sessionId) :
    (onWallEvent duplicates engine c { sessionId := S, kind := .leave }).wall.onlineUsers.getUser S =
      none := by
  cases hu : c.wall.onlineUsers.getUser S with
  | none =>
    rw [onWallEvent_unknown duplicates engine c _ hS hu (by intro _ _ h; cases h)]
    exact hu
  | some user =>
    rw [onWallEvent_leave duplicates engine c S user hS hu]
    cases user.reticle <;>
      simp only [OnlineUsers.getUser, OnlineUsers.removeUser, JsMap.get_delete_self]

/-! ## Lemmas: plot events and the reticle invariant -/

theorem brushFold_onlineUsers (engine : BrushEngine) (user : User) (points : List Point) :
    ∀ wall : Wall,
      (points.foldl (fun wall p => { wall with chunks := engine user wall p.x p.y }) wall).onlineUsers
          = wall.onlineUsers ∧
        (points.foldl (fun wall p => { wall with chunks := engine user wall p.x p.y })
          wall).chunkSize = wall.chunkSize := by
  induction points with
  | nil => intro wall; exact ⟨rfl, rfl⟩
  | cons p ps ih =>
    intro wall
    rw [List.foldl_cons]
    exact ih _

theorem plotFold_eq (engine : BrushEngine) (S : SessionId) (user : User) (points : List Point) :
    ∀ c : Client,
      points.foldl
          (fun c p =>
            { c.call (.renderBrushToChunks S user.brush p.x p.y) with
                wall.chunks := engine user c.wall p.x p.y })
          c =
        { c with
          calls := c.calls ++ points.map (fun p => .renderBrushToChunks S user.brush p.x p.y)
          wall := points.foldl (fun wall p => { wall with chunks := engine user wall p.x p.y })
            c.wall } := by
  induction points with
  | nil => intro c; simp
  | cons p ps ih =>
    intro c
    rw [List.foldl_cons, ih]
    simp [Client.call]

theorem onWallEvent_plot (duplicates : DuplicatePolicy) (engine : BrushEngine)
    (c : Client) (S : SessionId) (user : User)
    (points : List Point)
    (hS : S ≠ c.sessionId) (hu : c.wall.onlineUsers.getUser S = some user) :
    onWallEvent duplicates engine c { sessionId := S, kind := .plot points } =
      { c with
        calls := c.calls ++ points.map (fun p => .renderBrushToChunks S user.brush p.x p.y)
        wall := points.foldl (fun wall p => { wall with chunks := engine user wall p.x p.y })
          c.wall } := by
  simp only [onWallEvent, hS, ne_eq, not_false_eq_true, if_true, hu]
  exact plotFold_eq engine S user points c

theorem onWallEvent_setBrush (duplicates : DuplicatePolicy) (engine : BrushEngine)
    (c : Client) (S : SessionId) (user : User)
    (brush : String)
    (hS : S ≠ c.sessionId) (hu : c.wall.onlineUsers.getUser S = some user) :
    onWallEvent duplicates engine c { sessionId := S, kind := .setBrush brush } =
      { c with
        wall.onlineUsers.users := c.wall.onlineUsers.users.set S (user.setBrush brush) } := by
  simp only [onWallEvent, hS, ne_eq, not_false_eq_true, if_true, hu]

theorem onWallEvent_getUser_other (duplicates : DuplicatePolicy) (engine : BrushEngine)
    (c : Client) (ev : WallEvent)
    (S : SessionId) (hne : ev.sessionId ≠ S) :
    (onWallEvent duplicates engine c ev).wall.onlineUsers.getUser S = c.wall.onlineUsers.getUser S := by
  obtain ⟨S', kind⟩ := ev
  have hne' : S' ≠ S := hne
  by_cases hS : S' = c.sessionId
  · rw [onWallEvent_own duplicates engine c _ hS]
  · cases kind with
    | join nickname brush =>
      rcases onWallEvent_join_cases duplicates engine c S' nickname brush hS with h | h
      · rw [h]
      · rw [h]
        simp only [OnlineUsers.getUser, JsMap.get_set_of_ne _ _ hne']
    | leave =>
      cases hu : c.wall.onlineUsers.getUser S' with
      | none => rw [onWallEvent_unknown duplicates engine c _ hS hu (by intro _ _ h; cases h)]; rfl
      | some user =>
        rw [onWallEvent_leave duplicates engine c S' user hS hu]
        cases user.reticle <;>
          simp only [OnlineUsers.getUser, OnlineUsers.removeUser, JsMap.get_delete_of_ne _ hne']
    | cursor position =>
      cases hu : c.wall.onlineUsers.getUser S' with
      | none => rw [onWallEvent_unknown duplicates engine c _ hS hu (by intro _ _ h; cases h)]; rfl
      | some user =>
        cases hr : user.reticle with
        | none =>
          rw [onWallEvent_cursor_first duplicates engine c S' user position hS hu hr]
          simp only [OnlineUsers.getUser, JsMap.get_set_of_ne _ _ hne']
        | some reticle =>
          rw [onWallEvent_cursor_again duplicates engine c S' user reticle position hS hu hr]
          simp only [OnlineUsers.getUser, JsMap.get_set_of_ne _ _ hne']
    | setBrush brush =>
      cases hu : c.wall.onlineUsers.getUser S' with
      | none => rw [onWallEvent_unknown duplicates engine c _ hS hu (by intro _ _ h; cases h)]; rfl
      | some user =>
        rw [onWallEvent_setBrush duplicates engine c S' user brush hS hu]
        simp only [OnlineUsers.getUser, JsMap.get_set_of_ne _ _ hne']
    | plot points =>
      cases hu : c.wall.onlineUsers.getUser S' with
      | none => rw [onWallEvent_unknown duplicates engine c _ hS hu (by intro _ _ h; cases h)]; rfl
      | some user =>
        rw [onWallEvent_plot duplicates engine c S' user points hS hu]
        simp only [(brushFold_onlineUsers engine user points c.wall).1]

theorem reticleInv_step (duplicates : DuplicatePolicy) (engine : BrushEngine) (S : SessionId)
    (c : Client) (seen : Bool) (ev : WallEvent) (hS : S ≠ c.sessionId)
    (h : ReticleInv S c seen)
    (hj : duplicates = .replace ∨
      ∀ n b, ev = { sessionId := S, kind := .join n b } → c.wall.onlineUsers.getUser S = none) :
    ReticleInv S (onWallEvent duplicates engine c ev) (cursorFlagStep S seen ev) := by
  by_cases hid : ev.sessionId = S
  · obtain ⟨S', kind⟩ := ev
    have hid' : S' = S := hid
    subst hid'
    intro u hu'
    cases kind with
    | join nickname brush =>
      rw [onWallEvent_join duplicates engine c S' nickname brush hS
        (hj.imp id (fun f => f nickname brush rfl))] at hu'
      simp only [OnlineUsers.getUser, JsMap.get_set_self, Option.some.injEq] at hu'
      subst hu'
      simp [cursorFlagStep]
    | leave =>
      rw [getUser_after_leave duplicates engine c S' hS] at hu'
      cases hu'
    | cursor position =>
      cases hu : c.wall.onlineUsers.getUser S' with
      | none =>
        rw [onWallEvent_unknown duplicates engine c _ hS hu (by intro _ _ h; cases h)] at hu'
        exact absurd (hu.symm.trans hu') (by simp)
      | some user =>
        cases hr : user.reticle with
        | none =>
          rw [onWallEvent_cursor_first duplicates engine c S' user position hS hu hr] at hu'
          simp only [OnlineUsers.getUser, JsMap.get_set_self, Option.some.injEq] at hu'
          subst hu'
          simp [cursorFlagStep]
        | some reticle =>
          rw [onWallEvent_cursor_again duplicates engine c S' user reticle position hS hu hr]
            at hu'
          simp only [OnlineUsers.getUser, JsMap.get_set_self, Option.some.injEq] at hu'
          subst hu'
          simp [cursorFlagStep]
    | setBrush brush =>
      cases hu : c.wall.onlineUsers.getUser S' with
      | none =>
        rw [onWallEvent_unknown duplicates engine c _ hS hu (by intro _ _ h; cases h)] at hu'
        exact absurd (hu.symm.trans hu') (by simp)
      | some user =>
        rw [onWallEvent_setBrush duplicates engine c S' user brush hS hu] at hu'
        simp only [OnlineUsers.getUser, JsMap.get_set_self, Option.some.injEq] at hu'
        subst hu'
        simpa [cursorFlagStep, User.setBrush] using h user hu
    | plot points =>
      cases hu : c.wall.onlineUsers.getUser S' with
      | none =>
        rw [onWallEvent_unknown duplicates engine c _ hS hu (by intro _ _ h; cases h)] at hu'
        exact absurd (hu.symm.trans hu') (by simp)
      | some user =>
        rw [onWallEvent_plot duplicates engine c S' user points hS hu] at hu'
        simp only [(brushFold_onlineUsers engine user points c.wall).1] at hu'
        simpa [cursorFlagStep] using h u hu'
  · intro u hu'
    rw [onWallEvent_getUser_other duplicates engine c ev S hid] at hu'
    simpa [cursorFlagStep, hid] using h u hu'

theorem reticleInv_run (duplicates : DuplicatePolicy) (engine : BrushEngine) (S : SessionId)
    (events : List WallEvent) :
    ∀ (c : Client) (seen : Bool), S ≠ c.sessionId → ReticleInv S c seen →
      (duplicates = .replace ∨
        ∀ (pre post : List WallEvent) (n b : String),
          events = pre ++ { sessionId := S, kind := .join n b } :: post →
          (runWallEvents duplicates engine c pre).wall.onlineUsers.getUser S = none) →
      ReticleInv S (runWallEvents duplicates engine c events)
        (events.foldl (cursorFlagStep S) seen) := by
  induction events with
  | nil => intro c seen _ h _; exact h
  | cons ev evs ih =>
    intro c seen hS h hre
    have hstep : runWallEvents duplicates engine c (ev :: evs) =
        runWallEvents duplicates engine (onWallEvent duplicates engine c ev) evs := rfl
    rw [hstep, List.foldl_cons]
    refine ih _ _ (by rw [onWallEvent_sessionId]; exact hS)
      (reticleInv_step duplicates engine S c seen ev hS h ?_) ?_
    · refine hre.imp id (fun f n b he => ?_)
      exact f [] evs n b (by rw [he]; rfl)
    · refine hre.imp id (fun f pre post n b he => ?_)
      exact f (ev :: pre) post n b (by rw [he]; rfl)

theorem runWallEvents_sessionId (duplicates : DuplicatePolicy) (engine : BrushEngine)
    (events : List WallEvent) :
    ∀ c : Client, (runWallEvents duplicates engine c events).sessionId = c.sessionId := by
  induction events with
  | nil => intro c; rfl
  | cons ev evs ih =>
    intro c
    have hstep : runWallEvents duplicates engine c (ev :: evs) =
        runWallEvents duplicates engine (onWallEvent duplicates engine c ev) evs := rfl
    rw [hstep, ih, onWallEvent_sessionId]

theorem runWallEvents_append (duplicates : DuplicatePolicy) (engine : BrushEngine) (c : Client)
    (pre post : List WallEvent) :
    runWallEvents duplicates engine c (pre ++ post) =
      runWallEvents duplicates engine (runWallEvents duplicates engine c pre) post := by
  simp only [runWallEvents, List.foldl_append]

theorem runWallEvents_absent (duplicates : DuplicatePolicy) (engine : BrushEngine)
    (S : SessionId) (events : List WallEvent) :
    ∀ c : Client, S ≠ c.sessionId → c.wall.onlineUsers.getUser S = none →
      (∀ ev ∈ events, ev.sessionId = S → ∀ n b, ev.kind ≠ .join n b) →
      (runWallEvents duplicates engine c events).wall.onlineUsers.getUser S = none := by
  induction events with
  | nil => intro c _ hu _; exact hu
  | cons ev evs ih =>
    intro c hS hu hev
    have hstep : runWallEvents duplicates engine c (ev :: evs) =
        runWallEvents duplicates engine (onWallEvent duplicates engine c ev) evs := rfl
    rw [hstep]
    refine ih _ (by rw [onWallEvent_sessionId]; exact hS) ?_
      (fun e he => hev e (List.mem_cons_of_mem _ he))
    by_cases hid : ev.sessionId = S
    · rw [onWallEvent_unknown duplicates engine c ev (by rw [hid]; exact hS)
        (by rw [hid]; exact hu) (hev ev (List.mem_cons_self _ _) hid)]
      exact hu
    · rw [onWallEvent_getUser_other duplicates engine c ev S hid]
      exact hu

/-! ## Lemmas: the plot queue -/

theorem flushPlotQueue_eq (c : Client) :
    flushPlotQueue c =
      { c with
        plotQueue := []
        calls := c.calls ++ (if c.plotQueue = [] then [] else [.sendPlot c.plotQueue]) } := by
  unfold flushPlotQueue
  cases hq : c.plotQueue with
  | nil => simp
  | cons p ps => simp [Client.call]

theorem onCodeChanged_eq (code : String) (c : Client) (user : User)
    (hu : c.wall.onlineUsers.getUser c.sessionId = some user) :
    onCodeChanged code c =
      { c with
        plotQueue := []
        calls := c.calls ++ (if c.plotQueue = [] then [] else [.sendPlot c.plotQueue]) ++
          [.sendSetBrush code]
        wall.onlineUsers.users :=
          c.wall.onlineUsers.users.set c.sessionId (user.setBrush code) } := by
  have hu' : (flushPlotQueue c).wall.onlineUsers.getUser (flushPlotQueue c).sessionId =
      some user := by
    rw [flushPlotQueue_eq]; exact hu
  simp only [onCodeChanged, hu']
  rw [flushPlotQueue_eq]
  rfl

theorem onCodeChanged_of_none (code : String) (c : Client)
    (hu : c.wall.onlineUsers.getUser c.sessionId = none) :
    onCodeChanged code c = flushPlotQueue c := by
  have hu' : (flushPlotQueue c).wall.onlineUsers.getUser (flushPlotQueue c).sessionId =
      none := by
    rw [flushPlotQueue_eq]; exact hu
  simp only [onCodeChanged, hu']

theorem onCodeChanged_queue_calls (code : String) (c : Client) :
    (onCodeChanged code c).plotQueue = [] ∧
      plotBatches (onCodeChanged code c).calls = plotBatches (flushPlotQueue c).calls := by
  cases hu : c.wall.onlineUsers.getUser c.sessionId with
  | none =>
    rw [onCodeChanged_of_none code c hu, flushPlotQueue_eq]
    exact ⟨rfl, rfl⟩
  | some user =>
    rw [onCodeChanged_eq code c user hu, flushPlotQueue_eq]
    refine ⟨rfl, ?_⟩
    simp [plotBatches, List.filterMap_append]

theorem onPaint_of_none (engine : BrushEngine) (x y : Coord) (c : Client)
    (hu : c.wall.onlineUsers.getUser c.sessionId = none) :
    onPaint engine x y c = { c with plotQueue := c.plotQueue ++ [{ x := x, y := y }] } := by
  simp only [onPaint, hu]

theorem onPaint_of_some (engine : BrushEngine) (x y : Coord) (c : Client) (user : User)
    (hu : c.wall.onlineUsers.getUser c.sessionId = some user) :
    onPaint engine x y c =
      { c with
        plotQueue := c.plotQueue ++ [{ x := x, y := y }]
        calls := c.calls ++ [.renderBrushToChunks c.sessionId user.brush x y]
        wall.chunks := engine user c.wall x y } := by
  simp only [onPaint, hu, Client.call]

theorem onPaint_queue_calls (engine : BrushEngine) (x y : Coord) (c : Client) :
    (onPaint engine x y c).plotQueue = c.plotQueue ++ [{ x := x, y := y }] ∧
      plotBatches (onPaint engine x y c).calls = plotBatches c.calls := by
  cases hu : c.wall.onlineUsers.getUser c.sessionId with
  | none => rw [onPaint_of_none engine x y c hu]; exact ⟨rfl, rfl⟩
  | some user =>
    rw [onPaint_of_some engine x y c user hu]
    refine ⟨rfl, ?_⟩
    simp [plotBatches, List.filterMap_append]

theorem flushPlotQueue_batches (c : Client) :
    (plotBatches (flushPlotQueue c).calls).flatten ++ (flushPlotQueue c).plotQueue =
        (plotBatches c.calls).flatten ++ c.plotQueue ∧
      (([] : List Point) ∉ plotBatches c.calls →
        ([] : List Point) ∉ plotBatches (flushPlotQueue c).calls) := by
  rw [flushPlotQueue_eq]
  cases hq : c.plotQueue with
  | nil => simp
  | cons p ps =>
    simp only [plotBatches, List.filterMap_append]
    simp

theorem localStep_batches (engine : BrushEngine) (c : Client) (ev : LocalEvent) :
    (plotBatches (localStep engine c ev).calls).flatten ++ (localStep engine c ev).plotQueue =
        (plotBatches c.calls).flatten ++ c.plotQueue ++ paintedPoints [ev] ∧
      (([] : List Point) ∉ plotBatches c.calls →
        ([] : List Point) ∉ plotBatches (localStep engine c ev).calls) := by
  cases ev with
  | paint x y =>
    obtain ⟨h1, h2⟩ := onPaint_queue_calls engine x y c
    have hs : localStep engine c (.paint x y) = onPaint engine x y c := rfl
    rw [hs, h1, h2]
    refine ⟨?_, id⟩
    simp [paintedPoints]
  | tick =>
    obtain ⟨h1, h2⟩ := flushPlotQueue_batches c
    have hs : localStep engine c .tick = flushPlotQueue c := rfl
    rw [hs, h1]
    refine ⟨?_, h2⟩
    simp [paintedPoints]
  | codeChanged code =>
    obtain ⟨h1, h2⟩ := flushPlotQueue_batches c
    obtain ⟨h3, h4⟩ := onCodeChanged_queue_calls code c
    have hq : (flushPlotQueue c).plotQueue = [] := by rw [flushPlotQueue_eq]
    have hs : localStep engine c (.codeChanged code) = onCodeChanged code c := rfl
    rw [hq, List.append_nil] at h1
    rw [hs, h3, h4, h1]
    refine ⟨?_, h2⟩
    simp [paintedPoints]

theorem localRun_batches (engine : BrushEngine) (events : List LocalEvent) :
    ∀ c : Client,
      (plotBatches (localRun engine c events).calls).flatten ++
            (localRun engine c events).plotQueue =
          (plotBatches c.calls).flatten ++ c.plotQueue ++ paintedPoints events ∧
        (([] : List Point) ∉ plotBatches c.calls →
          ([] : List Point) ∉ plotBatches (localRun engine c events).calls) := by
  induction events with
  | nil => intro c; simp [localRun, paintedPoints]
  | cons ev evs ih =>
    intro c
    have hstep : localRun engine c (ev :: evs) = localRun engine (localStep engine c ev) evs :=
      rfl
    have hp : paintedPoints (ev :: evs) = paintedPoints [ev] ++ paintedPoints evs := by
      simp only [paintedPoints]
      rw [← List.filterMap_append]
      rfl
    obtain ⟨h1, h2⟩ := localStep_batches engine c ev
    obtain ⟨h3, h4⟩ := ih (localStep engine c ev)
    rw [hstep, h3, h1, hp]
    exact ⟨by simp only [List.append_assoc], fun h => h4 (h2 h)⟩

/-! ## Lemmas: calls of the chunk store -/

theorem JsMap.set_of_get_none {κ ν : Type} [DecidableEq κ] (m : JsMap κ ν) (k : κ) (v : ν)
    (h : JsMap.get m k = none) : JsMap.set m k v = m ++ [(k, v)] := by
  induction m with
  | nil => rfl
  | cons e rest ih =>
    obtain ⟨k₀, v₀⟩ := e
    by_cases h₀ : k₀ = k
    · simp [JsMap.get, h₀] at h
    · have hr : JsMap.get rest k = none := by simpa [JsMap.get, h₀] using h
      simp [JsMap.set, h₀, ih hr]

theorem getOrCreateChunk_getChunk_self (wall : Wall) (x y : Int) :
    (wall.getOrCreateChunk x y).2.getChunk x y = some (wall.getOrCreateChunk x y).1 := by
  cases hg : JsMap.get wall.chunks (chunkKey x y) with
  | none =>
    rw [getOrCreateChunk_of_none wall x y hg]
    simp only [Wall.getChunk, JsMap.get_set_self]
  | some chunk =>
    rw [getOrCreateChunk_of_some wall x y chunk hg]
    exact hg

theorem getOrCreateChunk_getChunk_other (wall : Wall) (x y x' y' : Int)
    (hne : ¬ (x' = x ∧ y' = y)) :
    (wall.getOrCreateChunk x y).2.getChunk x' y' = wall.getChunk x' y' := by
  have hkey : chunkKey x y ≠ chunkKey x' y' := by
    intro h
    obtain ⟨h1, h2⟩ := chunkKey_injective x y x' y' h
    exact hne ⟨h1.symm, h2.symm⟩
  cases hg : JsMap.get wall.chunks (chunkKey x y) with
  | none =>
    rw [getOrCreateChunk_of_none wall x y hg]
    simp only [Wall.getChunk, JsMap.get_set_of_ne _ _ hkey]
  | some chunk => rw [getOrCreateChunk_of_some wall x y chunk hg]

theorem apply_getChunk_some (wall : Wall) (op : WallOp) (x y : Int) (chunk : Chunk)
    (h : wall.getChunk x y = some chunk) : (wall.apply op).getChunk x y = some chunk := by
  cases op with
  | getChunk x' y' => exact h
  | getOrCreateChunk x' y' =>
    show (wall.getOrCreateChunk x' y').2.getChunk x y = some chunk
    by_cases hp : x = x' ∧ y = y'
    · obtain ⟨rfl, rfl⟩ := hp
      rw [getOrCreateChunk_of_some wall x y chunk h]
      exact h
    · rw [getOrCreateChunk_getChunk_other wall x' y' x y hp]
      exact h

theorem applyAll_getChunk_some (ops : List WallOp) (x y : Int) (chunk : Chunk) :
    ∀ wall : Wall, wall.getChunk x y = some chunk →
      (wall.applyAll ops).getChunk x y = some chunk := by
  induction ops with
  | nil => intro wall h; exact h
  | cons op ops ih =>
    intro wall h
    exact ih (wall.apply op) (apply_getChunk_some wall op x y chunk h)

theorem applyAll_getChunk_none (ops : List WallOp) (x y : Int) :
    ∀ wall : Wall, wall.getChunk x y = none →
      (∀ op ∈ ops, op ≠ .getOrCreateChunk x y) →
      (wall.applyAll ops).getChunk x y = none := by
  induction ops with
  | nil => intro wall h _; exact h
  | cons op ops ih =>
    intro wall h hops
    refine ih (wall.apply op) ?_ (fun o ho => hops o (List.mem_cons_of_mem _ ho))
    have hop := hops op (List.mem_cons_self _ _)
    cases op with
    | getChunk x' y' => exact h
    | getOrCreateChunk x' y' =>
      show (wall.getOrCreateChunk x' y').2.getChunk x y = none
      rw [getOrCreateChunk_getChunk_other wall x' y' x y]
      · exact h
      · rintro ⟨rfl, rfl⟩
        exact hop rfl

/-! ## Lemmas: stalled requests -/

theorem trackerStep_requested_stays (c : Client) (ev : TrackerEvent) (key : String)
    (h : JsMap.get c.chunkDownloadStates key = some .requested)
    (hev : namesKey key ev = false) :
    JsMap.get (trackerStep c ev).chunkDownloadStates key = some .requested := by
  cases ev with
  | viewportUpdate r =>
    show JsMap.get (sendViewportUpdate r c).chunkDownloadStates key = some .requested
    rw [sendViewportUpdate_get, if_neg (fun hn => by rw [h] at hn; simp at hn), h]
  | chunks event =>
    show JsMap.get (onChunks event c).chunkDownloadStates key = some .requested
    have hm : key ∉ event.chunkInfo.map infoKey := by simpa [namesKey] using hev
    rw [onChunks_get, if_neg hm, h]

theorem trackerRun_requested_stays (events : List TrackerEvent) (key : String) :
    ∀ c : Client, JsMap.get c.chunkDownloadStates key = some .requested →
      (∀ ev ∈ events, namesKey key ev = false) →
      JsMap.get (trackerRun c events).chunkDownloadStates key = some .requested := by
  induction events with
  | nil => intro c h _; exact h
  | cons ev evs ih =>
    intro c h hev
    rw [trackerRun_cons]
    exact ih _ (trackerStep_requested_stays c ev key h (hev ev (List.mem_cons_self _ _)))
      (fun e he => hev e (List.mem_cons_of_mem _ he))

/-! ## Lemmas: the cursor debounce -/

theorem reportCursor_run_burst (ms : List CursorMove) :
    ∀ (m : CursorMove) (r : CursorReporter),
      List.Chain (fun a b : CursorMove => b.time < a.time + updateInterval) m ms →
      ((r.reportCursor m.time m.x m.y).run ms).calls = (r.elapse m.time).calls ∧
        ((r.reportCursor m.time m.x m.y).run ms).timeout =
          some (((m :: ms).getLast (List.cons_ne_nil m ms)).time + updateInterval,
            ((m :: ms).getLast (List.cons_ne_nil m ms)).x,
            ((m :: ms).getLast (List.cons_ne_nil m ms)).y) := by
  induction ms with
  | nil => intro m r _; exact ⟨rfl, rfl⟩
  | cons m' ms ih =>
    intro m r hchain
    obtain ⟨hlt, hrest⟩ := List.chain_cons.mp hchain
    have hstep : (r.reportCursor m.time m.x m.y).run (m' :: ms) =
        ((r.reportCursor m.time m.x m.y).reportCursor m'.time m'.x m'.y).run ms := rfl
    obtain ⟨h1, h2⟩ := ih m' (r.reportCursor m.time m.x m.y) hrest
    have hquiet : (r.reportCursor m.time m.x m.y).elapse m'.time =
        r.reportCursor m.time m.x m.y := by
      simp only [CursorReporter.elapse, CursorReporter.reportCursor]
      rw [if_neg (not_le.mpr hlt)]
    rw [hstep, h1, h2, hquiet]
    refine ⟨rfl, ?_⟩
    simp only [List.getLast_cons (List.cons_ne_nil m' ms)]

/-! ## Theorems -/

/-- C1. Pending-count invariant: in every state reached from a client with an
empty `chunkDownloadStates` map and `pendingChunks = 0` by any finite sequence of
viewport updates and `chunks` events, `pendingChunks` is the length of
`requestedKeys`, a duplicate-free list that holds exactly the keys whose state is
`"requested"`; in particular it is not negative. -/
theorem pendingChunks_eq_requested (c₀ : Client) (events : List TrackerEvent)
    (hmap : c₀.chunkDownloadStates = []) (hcount : c₀.pendingChunks = 0) :
    (trackerRun c₀ events).pendingChunks
        = ((requestedKeys (trackerRun c₀ events).chunkDownloadStates).length : Int) ∧
      (requestedKeys (trackerRun c₀ events).chunkDownloadStates).Nodup ∧
      (∀ key, key ∈ requestedKeys (trackerRun c₀ events).chunkDownloadStates ↔
        (trackerRun c₀ events).chunkDownloadStates.get key = some .requested) ∧
      0 ≤ (trackerRun c₀ events).pendingChunks := by
  have h₀ : TrackerInv c₀ := by
    unfold TrackerInv
    rw [hmap, hcount]
    simp [JsMap.keys, requestedKeys]
  have h := trackerInv_trackerRun c₀ events h₀
  refine ⟨h.2, requestedKeys_nodup _ h.1, fun key => mem_requestedKeys _ key h.1, ?_⟩
  rw [h.2]
  exact Int.natCast_nonneg _

/-- C1, at a concrete run: after a viewport update over `[0,2) × [0,1)` and a
`chunks` event for `(0,0)`, one key is pending. -/
theorem pendingChunks_eq_requested_witness :
    (Client.init 7 256 []).chunkDownloadStates = [] ∧
      (Client.init 7 256 []).pendingChunks = 0 ∧
      (trackerRun (Client.init 7 256 [])
          [.viewportUpdate { left := 0, right := 2, top := 0, bottom := 1 },
           .chunks { chunkInfo := [{ position := { x := 0, y := 0 }, offset := 0, length := 0 }],
                     chunkData := [] }]).pendingChunks = 1 ∧
      0 ≤ (trackerRun (Client.init 7 256 [])
          [.viewportUpdate { left := 0, right := 2, top := 0, bottom := 1 },
           .chunks { chunkInfo := [{ position := { x := 0, y := 0 }, offset := 0, length := 0 }],
                     chunkData := [] }]).pendingChunks :=
  ⟨rfl, rfl, by decide,
    (pendingChunks_eq_requested (Client.init 7 256 [])
      [.viewportUpdate { left := 0, right := 2, top := 0, bottom := 1 },
       .chunks { chunkInfo := [{ position := { x := 0, y := 0 }, offset := 0, length := 0 }],
                 chunkData := [] }] rfl rfl).2.2.2⟩

/-- C2. Dedup: over any sequence of viewport updates and `chunks` events, run from
any client, a key enters the state `"requested"` at most once; if the key is
already tracked it never does, it stays tracked, a downloaded key stays
downloaded; and the loop body of `sendViewportUpdate` leaves the client as it is
when the key of its position is tracked. -/
theorem requested_at_most_once (c : Client) (events : List TrackerEvent) (key : String) :
    requestTransitions key c events ≤ 1 ∧
      (c.chunkDownloadStates.get key ≠ none →
        requestTransitions key c events = 0 ∧
          (trackerRun c events).chunkDownloadStates.get key ≠ none ∧
          (c.chunkDownloadStates.get key = some .downloaded →
            (trackerRun c events).chunkDownloadStates.get key = some .downloaded)) ∧
      (∀ x y : Int, c.chunkDownloadStates.get (chunkKey x y) ≠ none → requestChunk c x y = c) := by
  refine ⟨requestTransitions_le_one key events c, ?_, ?_⟩
  · intro h
    cases hv : JsMap.get c.chunkDownloadStates key with
    | none => exact absurd hv h
    | some v =>
      obtain ⟨h1, h2⟩ := trackerRun_tracked key events c v hv
      refine ⟨h1, ?_, ?_⟩
      · rcases h2 with h2 | h2 <;> rw [h2] <;> simp
      · intro hd
        have : v = .downloaded := by simpa using hd
        subst this
        exact h2.elim id id
  · intro x y h
    cases hv : JsMap.get c.chunkDownloadStates (chunkKey x y) with
    | none => exact absurd hv h
    | some v => exact requestChunk_of_some c x y v hv

/-- C2, at a concrete run: the key of `(0,0)`, requested by a first viewport update,
is not requested again by later updates over the same rectangle, before or after
its data arrives. -/
theorem requested_at_most_once_witness :
    (sendViewportUpdate { left := 0, right := 1, top := 0, bottom := 1 }
        (Client.init 7 256 [])).chunkDownloadStates.get (chunkKey 0 0) ≠ none ∧
      requestTransitions (chunkKey 0 0)
        (sendViewportUpdate { left := 0, right := 1, top := 0, bottom := 1 } (Client.init 7 256 []))
        [.viewportUpdate { left := 0, right := 1, top := 0, bottom := 1 },
         .chunks { chunkInfo := [{ position := { x := 0, y := 0 }, offset := 0, length := 0 }], chunkData := [] },
         .viewportUpdate { left := 0, right := 1, top := 0, bottom := 1 }] = 0 :=
  ⟨by decide,
    ((requested_at_most_once
      (sendViewportUpdate { left := 0, right := 1, top := 0, bottom := 1 } (Client.init 7 256 []))
      [.viewportUpdate { left := 0, right := 1, top := 0, bottom := 1 },
       .chunks { chunkInfo := [{ position := { x := 0, y := 0 }, offset := 0, length := 0 }], chunkData := [] },
       .viewportUpdate { left := 0, right := 1, top := 0, bottom := 1 }]
      (chunkKey 0 0)).2.1 (by decide)).1⟩

/-- C3. Viewport update postcondition: for every client and every rectangle with
`left < right` and `top < bottom`, after `sendViewportUpdate` every key of the
half-open rectangle is tracked, the ones that were untracked being requested and
the others keeping their state; `pendingChunks` has grown by the number of grid
positions of the rectangle that were untracked; every key that is not the key of a
position of the rectangle, in particular the key of any position outside it, keeps
its state; and with an empty map the growth is `(right - left) * (bottom - top)`. -/
theorem sendViewportUpdate_post (c : Client) (r : Rect)
    (hlr : r.left < r.right) (htb : r.top < r.bottom) :
    (∀ x y : Int, r.left ≤ x → x < r.right → r.top ≤ y → y < r.bottom →
        (sendViewportUpdate r c).chunkDownloadStates.get (chunkKey x y) ≠ none ∧
        (sendViewportUpdate r c).chunkDownloadStates.get (chunkKey x y) =
          if c.chunkDownloadStates.get (chunkKey x y) = none then some .requested
          else c.chunkDownloadStates.get (chunkKey x y)) ∧
      (sendViewportUpdate r c).pendingChunks =
        c.pendingChunks +
          (((Finset.Ico r.left r.right ×ˢ Finset.Ico r.top r.bottom).filter
              (fun p => c.chunkDownloadStates.get (chunkKey p.1 p.2) = none)).card : Int) ∧
      (∀ key : String,
        (∀ x y : Int, r.left ≤ x → x < r.right → r.top ≤ y → y < r.bottom → key ≠ chunkKey x y) →
        (sendViewportUpdate r c).chunkDownloadStates.get key = c.chunkDownloadStates.get key) ∧
      (∀ x y : Int, ¬ (r.left ≤ x ∧ x < r.right ∧ r.top ≤ y ∧ y < r.bottom) →
        (sendViewportUpdate r c).chunkDownloadStates.get (chunkKey x y) =
          c.chunkDownloadStates.get (chunkKey x y)) ∧
      (c.chunkDownloadStates = [] →
        (sendViewportUpdate r c).pendingChunks =
          c.pendingChunks + (r.right - r.left) * (r.bottom - r.top)) := by
  have hmem : ∀ x y : Int, chunkKey x y ∈ (rectPositions r).map positionKey ↔
      (r.left ≤ x ∧ x < r.right) ∧ (r.top ≤ y ∧ y < r.bottom) := by
    intro x y
    rw [← mem_rectPositions]
    constructor
    · intro h
      obtain ⟨p, hp, he⟩ := List.mem_map.mp h
      have : p = (x, y) := positionKey_injective he
      rw [← this]; exact hp
    · intro h
      exact List.mem_map.mpr ⟨(x, y), h, rfl⟩
  have hcount : (sendViewportUpdate r c).pendingChunks =
      c.pendingChunks +
        (((rectPositions r).filter
            (fun p => JsMap.get c.chunkDownloadStates (positionKey p) = none)).length : Int) := by
    rw [sendViewportUpdate_eq, requestChunks_pendingChunks _ _ (nodup_rectKeys r)]
    rfl
  refine ⟨?_, ?_, ?_, ?_, ?_⟩
  · intro x y h1 h2 h3 h4
    have hin := (hmem x y).mpr ⟨⟨h1, h2⟩, ⟨h3, h4⟩⟩
    have hget := sendViewportUpdate_get r c (chunkKey x y)
    by_cases hn : JsMap.get c.chunkDownloadStates (chunkKey x y) = none
    · rw [if_pos ⟨hn, hin⟩] at hget
      rw [hget, if_pos hn]
      simp
    · rw [if_neg (fun h => hn h.1)] at hget
      rw [hget, if_neg hn]
      exact ⟨hn, rfl⟩
  · rw [hcount, ← rectPositions_toFinset,
      ← List.toFinset_card_of_nodup ((nodup_rectPositions r).filter _), List.toFinset_filter]
    congr 3
    ext p
    simp [positionKey]
  · intro key hkey
    rw [sendViewportUpdate_get, if_neg]
    rintro ⟨_, hm⟩
    obtain ⟨⟨x, y⟩, hp, he⟩ := List.mem_map.mp hm
    obtain ⟨⟨h1, h2⟩, ⟨h3, h4⟩⟩ := (mem_rectPositions r x y).mp hp
    exact hkey x y h1 h2 h3 h4 he.symm
  · intro x y hout
    rw [sendViewportUpdate_get, if_neg]
    rintro ⟨_, hm⟩
    obtain ⟨⟨h1, h2⟩, ⟨h3, h4⟩⟩ := (hmem x y).mp hm
    exact hout ⟨h1, h2, h3, h4⟩
  · intro hempty
    rw [hcount, hempty]
    have : (rectPositions r).filter (fun p => JsMap.get ([] : JsMap String DownloadState)
        (positionKey p) = none) = rectPositions r := by
      apply List.filter_eq_self.mpr
      intro p _
      simp [JsMap.get]
    rw [this, length_rectPositions]
    push_cast
    rw [Int.toNat_of_nonneg (by omega), Int.toNat_of_nonneg (by omega)]

/-- C3, at the rectangle `[0,2) × [0,2)` on a client that tracks nothing: the four
positions are requested, `pendingChunks` is 4, and `(2,0)` and `(0,2)` are not
tracked. -/
theorem sendViewportUpdate_post_witness :
    (sendViewportUpdate { left := 0, right := 2, top := 0, bottom := 2 }
        (Client.init 7 256 [])).pendingChunks = 0 + (2 - 0) * (2 - 0) ∧
      (sendViewportUpdate { left := 0, right := 2, top := 0, bottom := 2 }
        (Client.init 7 256 [])).chunkDownloadStates =
        [("(0,0)", .requested), ("(1,0)", .requested), ("(0,1)", .requested),
          ("(1,1)", .requested)] :=
  ⟨(sendViewportUpdate_post (Client.init 7 256 [])
      { left := 0, right := 2, top := 0, bottom := 2 } (by decide) (by decide)).2.2.2.2 rfl,
    by decide⟩

/-- C4. Chunk-data arrival postcondition: for every client and every `chunks`
event, after the listener every key named by an entry is downloaded, whatever the
entry's length and the key's earlier state; `pendingChunks` has decreased by the
number of distinct entry keys that were requested before; and every key no entry
names keeps its state. -/
theorem onChunks_post (c : Client) (event : ChunksEvent) :
    (∀ info ∈ event.chunkInfo,
        (onChunks event c).chunkDownloadStates.get (chunkKey info.position.x info.position.y) = some .downloaded) ∧
      (onChunks event c).pendingChunks =
        c.pendingChunks -
          (((event.chunkInfo.map (fun info => chunkKey info.position.x info.position.y)).toFinset.filter
              (fun key => c.chunkDownloadStates.get key = some .requested)).card : Int) ∧
      (∀ key : String, (∀ info ∈ event.chunkInfo, key ≠ chunkKey info.position.x info.position.y) →
        (onChunks event c).chunkDownloadStates.get key = c.chunkDownloadStates.get key) := by
  refine ⟨?_, onChunks_pendingChunks event c, ?_⟩
  · intro info hinfo
    have hm : chunkKey info.position.x info.position.y ∈ event.chunkInfo.map infoKey :=
      List.mem_map.mpr ⟨info, hinfo, rfl⟩
    have hget := onChunks_get event c (chunkKey info.position.x info.position.y)
    rw [if_pos hm] at hget
    exact hget
  · intro key hkey
    have hget := onChunks_get event c key
    rw [if_neg] at hget
    · exact hget
    · intro hm
      obtain ⟨info, hinfo, he⟩ := List.mem_map.mp hm
      exact hkey info hinfo he.symm

/-- C4, at the example of the specification: after the viewport update over
`[0,2) × [0,2)`, a `chunks` event with the entries `(0,0)` of length 0 and `(1,0)`
of length 500 leaves two chunks pending, both entries downloaded and the two
others requested. -/
theorem onChunks_post_witness :
    (onChunks
        { chunkInfo := [{ position := { x := 0, y := 0 }, offset := 0, length := 0 },
                        { position := { x := 1, y := 0 }, offset := 0, length := 500 }],
          chunkData := [] }
        (sendViewportUpdate { left := 0, right := 2, top := 0, bottom := 2 }
          (Client.init 7 256 []))).chunkDownloadStates.get (chunkKey 1 0) =
        some .downloaded ∧
      (onChunks
        { chunkInfo := [{ position := { x := 0, y := 0 }, offset := 0, length := 0 },
                        { position := { x := 1, y := 0 }, offset := 0, length := 500 }],
          chunkData := [] }
        (sendViewportUpdate { left := 0, right := 2, top := 0, bottom := 2 }
          (Client.init 7 256 []))).pendingChunks = 2 ∧
      (onChunks
        { chunkInfo := [{ position := { x := 0, y := 0 }, offset := 0, length := 0 },
                        { position := { x := 1, y := 0 }, offset := 0, length := 500 }],
          chunkData := [] }
        (sendViewportUpdate { left := 0, right := 2, top := 0, bottom := 2 }
          (Client.init 7 256 []))).chunkDownloadStates =
        [("(0,0)", .downloaded), ("(1,0)", .downloaded), ("(0,1)", .requested),
          ("(1,1)", .requested)] :=
  ⟨(onChunks_post
      (sendViewportUpdate { left := 0, right := 2, top := 0, bottom := 2 } (Client.init 7 256 []))
      { chunkInfo := [{ position := { x := 0, y := 0 }, offset := 0, length := 0 },
                      { position := { x := 1, y := 0 }, offset := 0, length := 500 }],
        chunkData := [] }).1
      { position := { x := 1, y := 0 }, offset := 0, length := 500 } (by decide),
    by decide, by decide⟩

/-- C5, refuted as stated: a second viewport update over `[0,1) × [0,1)`, whose only
key is already tracked, still sends a message to the session; and the update over
`[0,2) × [0,2)` that requests four keys sends one message, not four. -/
theorem sendViewportUpdate_sends_when_tracked :
    (∀ x y : Int, 0 ≤ x → x < 1 → 0 ≤ y → y < 1 →
        (sendViewportUpdate { left := 0, right := 1, top := 0, bottom := 1 }
          (Client.init 7 256 [])).chunkDownloadStates.get (chunkKey x y) ≠ none) ∧
      (sendViewportUpdate { left := 0, right := 1, top := 0, bottom := 1 }
          (sendViewportUpdate { left := 0, right := 1, top := 0, bottom := 1 }
            (Client.init 7 256 []))).calls =
        (sendViewportUpdate { left := 0, right := 1, top := 0, bottom := 1 }
            (Client.init 7 256 [])).calls ++
          [.sendViewport { left := 0, right := 1, top := 0, bottom := 1 }] ∧
      (requestedKeys (sendViewportUpdate { left := 0, right := 2, top := 0, bottom := 2 }
          (Client.init 7 256 [])).chunkDownloadStates).length = 4 ∧
      (sendViewportUpdate { left := 0, right := 2, top := 0, bottom := 2 }
          (Client.init 7 256 [])).calls =
        [.sendViewport { left := 0, right := 2, top := 0, bottom := 2 }] := by
  refine ⟨?_, by decide, by decide, by decide⟩
  intro x y h1 h2 h3 h4
  have hx : x = 0 := by omega
  have hy : y = 0 := by omega
  subst hx hy
  decide

/-- C5, amended: every viewport update makes exactly one call to the session,
`sendViewport` with the visible rectangle, and no call per key; when every key of
the rectangle is already tracked, that call is all the update does. -/
theorem sendViewportUpdate_calls (c : Client) (r : Rect) :
    (sendViewportUpdate r c).calls = c.calls ++ [.sendViewport r] ∧
      ((∀ x y : Int, r.left ≤ x → x < r.right → r.top ≤ y → y < r.bottom →
          c.chunkDownloadStates.get (chunkKey x y) ≠ none) →
        sendViewportUpdate r c = c.call (.sendViewport r)) := by
  constructor
  · rw [sendViewportUpdate_eq, requestChunks_calls]
    rfl
  · intro h
    rw [sendViewportUpdate_eq]
    apply requestChunks_of_tracked
    rintro ⟨x, y⟩ hp
    obtain ⟨⟨h1, h2⟩, ⟨h3, h4⟩⟩ := (mem_rectPositions r x y).mp hp
    exact h x y h1 h2 h3 h4

/-- C5, amended, at a concrete client: with `(0,0)` downloaded, the update over
`[0,1) × [0,1)` only records the `sendViewport` call. -/
theorem sendViewportUpdate_calls_witness :
    sendViewportUpdate { left := 0, right := 1, top := 0, bottom := 1 }
        { Client.init 7 256 [] with chunkDownloadStates := [("(0,0)", .downloaded)] } =
      Client.call { Client.init 7 256 [] with chunkDownloadStates := [("(0,0)", .downloaded)] }
        (.sendViewport { left := 0, right := 1, top := 0, bottom := 1 }) :=
  (sendViewportUpdate_calls
      { Client.init 7 256 [] with chunkDownloadStates := [("(0,0)", .downloaded)] }
      { left := 0, right := 1, top := 0, bottom := 1 }).2
    (by
      intro x y h1 h2 h3 h4
      dsimp only at h1 h2 h3 h4
      have hx : x = 0 := by omega
      have hy : y = 0 := by omega
      subst hx hy
      decide)

/-- C6. Payload routing: the `chunks` listener starts exactly one decode for each
entry with `length > 0`, in entry order, over the bytes `[offset, offset + length)`
of the batch buffer and for the entry's position, and none for an entry with
`length = 0`; the listener leaves the wall, hence the chunk store, as it is; and
the completion of a decode for `(x, y)` stores under the key of `(x, y)` the chunk
that was there, or a fresh chunk of the wall's chunk size, with its canvas and
pixmap replaced by the bitmap, every other chunk being untouched. -/
theorem onChunks_decodes (c : Client) (event : ChunksEvent) (x y : Int) (bitmap : Bitmap) :
    (onChunks event c).calls =
        c.calls ++ event.chunkInfo.filterMap (fun info =>
          if info.length > 0 then
            some (.createImageBitmap ((event.chunkData.drop info.offset).take info.length)
              info.position.x info.position.y)
          else none) ∧
      (onChunks event c).wall = c.wall ∧
      (onBitmap x y bitmap c).wall.getChunk x y =
        some { size := ((c.wall.getChunk x y).getD (Chunk.new c.wall.chunkSize)).size
               pixmap := bitmap
               canvas := bitmap } ∧
      (∀ key : String, key ≠ chunkKey x y →
        (onBitmap x y bitmap c).wall.chunks.get key = c.wall.chunks.get key) ∧
      (onBitmap x y bitmap c).calls = c.calls := by
  refine ⟨?_, onChunks_wall event c, ?_, ?_, ?_⟩
  · rw [onChunks_calls]
    rfl
  · unfold onBitmap Wall.getChunk
    cases hg : JsMap.get c.wall.chunks (chunkKey x y) with
    | none =>
      rw [getOrCreateChunk_of_none _ _ _ hg]
      simp [JsMap.get_set_self, Chunk.syncToPixmap, Chunk.new]
    | some chunk =>
      rw [getOrCreateChunk_of_some _ _ _ chunk hg]
      simp [JsMap.get_set_self, Chunk.syncToPixmap]
  · intro key hkey
    have hne : chunkKey x y ≠ key := fun h => hkey h.symm
    unfold onBitmap
    cases hg : JsMap.get c.wall.chunks (chunkKey x y) with
    | none =>
      rw [getOrCreateChunk_of_none _ _ _ hg]
      simp [JsMap.get_set_of_ne _ _ hne]
    | some chunk =>
      rw [getOrCreateChunk_of_some _ _ _ chunk hg]
      simp [JsMap.get_set_of_ne _ _ hne]
  · unfold onBitmap
    cases hg : JsMap.get c.wall.chunks (chunkKey x y) with
    | none => rw [getOrCreateChunk_of_none _ _ _ hg]
    | some chunk => rw [getOrCreateChunk_of_some _ _ _ chunk hg]

/-- C6, at a concrete client: the decode completion for `(1,0)` leaves the entry
of the chunk store under the key of `(0,0)` as it is, and the `chunks` event with
one empty and one three-byte entry starts one decode, over the bytes at 1, 2, 3. -/
theorem onChunks_decodes_witness :
    (onBitmap 1 0 [9, 9, 9, 9] (Client.init 7 1 [])).wall.chunks.get (chunkKey 0 0) =
        (Client.init 7 1 []).wall.chunks.get (chunkKey 0 0) ∧
      (onChunks
        { chunkInfo := [{ position := { x := 0, y := 0 }, offset := 0, length := 0 },
                        { position := { x := 1, y := 0 }, offset := 1, length := 3 }],
          chunkData := [10, 11, 12, 13, 14] }
        (Client.init 7 1 [])).calls = [.createImageBitmap [11, 12, 13] 1 0] :=
  ⟨(onChunks_decodes (Client.init 7 1 [])
      { chunkInfo := [{ position := { x := 0, y := 0 }, offset := 0, length := 0 },
                      { position := { x := 1, y := 0 }, offset := 1, length := 3 }],
        chunkData := [10, 11, 12, 13, 14] } 1 0 [9, 9, 9, 9]).2.2.2.1 (chunkKey 0 0) (by decide),
    ((onChunks_decodes (Client.init 7 1 [])
      { chunkInfo := [{ position := { x := 0, y := 0 }, offset := 0, length := 0 },
                      { position := { x := 1, y := 0 }, offset := 1, length := 3 }],
        chunkData := [10, 11, 12, 13, 14] } 1 0 [9, 9, 9, 9]).1).trans (by decide)⟩

/-- C7. Presence lifecycle: let `S` be a remote session in the registry whose user
has no reticle. The first cursor event for `S` creates one reticle and adds it to
the reticle renderer; over a whole non-empty sequence of cursor events for `S`
these stay the only calls made, the user's reticle is that one reticle and its
position is that of the last event. A following leave of `S` calls
`removeReticle` once, for that reticle, which is then no longer in the renderer,
and `S` is no longer in the registry. A leave of `S` while the user has no
reticle makes no call, leaves the renderer as it is and removes `S`. -/
theorem reticle_lifecycle (duplicates : DuplicatePolicy) (engine : BrushEngine)
    (c : Client) (S : SessionId) (user : User)
    (p : Point) (ps : List Point)
    (hS : S ≠ c.sessionId) (hu : c.wall.onlineUsers.getUser S = some user)
    (hr : user.reticle = none) :
    (onWallEvent duplicates engine c { sessionId := S, kind := .cursor p }).calls =
        c.calls ++ [.newReticleCursor c.nextReticle user.nickname, .addReticle c.nextReticle] ∧
      (runWallEvents duplicates engine c (cursorEvents S (p :: ps))).calls =
        c.calls ++ [.newReticleCursor c.nextReticle user.nickname, .addReticle c.nextReticle] ∧
      (runWallEvents duplicates engine c (cursorEvents S (p :: ps))).nextReticle = c.nextReticle + 1 ∧
      (runWallEvents duplicates engine c (cursorEvents S (p :: ps))).reticles =
        c.reticles ++ [c.nextReticle] ∧
      (runWallEvents duplicates engine c (cursorEvents S (p :: ps))).wall.onlineUsers.getUser S =
        some { user with
          reticle := some
            { id := c.nextReticle
              nickname := user.nickname
              cursor := some (((p :: ps).getLast (List.cons_ne_nil p ps)).x,
                ((p :: ps).getLast (List.cons_ne_nil p ps)).y) } } ∧
      (onWallEvent duplicates engine (runWallEvents duplicates engine c (cursorEvents S (p :: ps)))
          { sessionId := S, kind := .leave }).calls =
        (runWallEvents duplicates engine c (cursorEvents S (p :: ps))).calls ++
          [.removeReticle c.nextReticle] ∧
      (onWallEvent duplicates engine (runWallEvents duplicates engine c (cursorEvents S (p :: ps)))
          { sessionId := S, kind := .leave }).reticles =
        c.reticles.filter (fun r => r ≠ c.nextReticle) ∧
      (onWallEvent duplicates engine (runWallEvents duplicates engine c (cursorEvents S (p :: ps)))
          { sessionId := S, kind := .leave }).wall.onlineUsers.getUser S = none ∧
      (onWallEvent duplicates engine c { sessionId := S, kind := .leave }).calls = c.calls ∧
      (onWallEvent duplicates engine c { sessionId := S, kind := .leave }).reticles = c.reticles ∧
      (onWallEvent duplicates engine c { sessionId := S, kind := .leave }).wall.onlineUsers.getUser S =
        none := by
  have hfirst := onWallEvent_cursor_first duplicates engine c S user p hS hu hr
  have hstep : runWallEvents duplicates engine c (cursorEvents S (p :: ps)) =
      runWallEvents duplicates engine (onWallEvent duplicates engine c { sessionId := S, kind := .cursor p })
        (cursorEvents S ps) := rfl
  obtain ⟨h1, h2, h3, h4, h5⟩ := runWallEvents_cursor_again duplicates engine S ps
    (onWallEvent duplicates engine c { sessionId := S, kind := .cursor p })
    { user with reticle := some { id := c.nextReticle, nickname := user.nickname,
                                  cursor := some (p.x, p.y) } }
    { id := c.nextReticle, nickname := user.nickname, cursor := some (p.x, p.y) }
    (by rw [onWallEvent_sessionId]; exact hS)
    (by rw [hfirst]; simp only [OnlineUsers.getUser, JsMap.get_set_self])
    rfl
  rw [← hstep] at h1 h2 h3 h4 h5
  rw [hfirst] at h1 h2 h3
  simp only at h1 h2 h3
  rw [foldl_cursor_last] at h5
  have hS' : S ≠ (runWallEvents duplicates engine c (cursorEvents S (p :: ps))).sessionId := by
    rw [h4, onWallEvent_sessionId]; exact hS
  have hleave := onWallEvent_leave duplicates engine _ S _ hS' h5
  simp only at hleave
  have hleave₀ := onWallEvent_leave duplicates engine c S user hS hu
  rw [hr] at hleave₀
  simp only at hleave₀
  refine ⟨by rw [hfirst], h1, h2, h3, h5, ?_, ?_, ?_, ?_, ?_, ?_⟩
  · rw [hleave]
  · rw [hleave]
    simp only [h3, List.filter_append]
    simp
  · rw [hleave]
    simp only [OnlineUsers.getUser, OnlineUsers.removeUser, JsMap.get_delete_self]
  · rw [hleave₀]
  · rw [hleave₀]
  · rw [hleave₀]
    simp only [OnlineUsers.getUser, OnlineUsers.removeUser, JsMap.get_delete_self]

/-- C7, at a concrete client: user 1 of the registry gets reticle 0 on the first of
two cursor events, and the reticle ends at the second position. -/
theorem reticle_lifecycle_witness :
    (1 : SessionId) ≠ (Client.init 0 256
        [(1, { nickname := "ann", brush := "dot", reticle := none })]).sessionId ∧
      (runWallEvents .replace (fun _ wall _ _ => wall.chunks)
          (Client.init 0 256 [(1, { nickname := "ann", brush := "dot", reticle := none })])
          (cursorEvents 1 [{ x := 5, y := 5 }, { x := 6, y := 7 }])).wall.onlineUsers.getUser 1 =
        some { nickname := "ann", brush := "dot",
               reticle := some { id := 0, nickname := "ann", cursor := some (6, 7) } } :=
  ⟨by decide,
    (reticle_lifecycle .replace (fun _ wall _ _ => wall.chunks)
      (Client.init 0 256 [(1, { nickname := "ann", brush := "dot", reticle := none })])
      1 { nickname := "ann", brush := "dot", reticle := none } { x := 5, y := 5 }
      [{ x := 6, y := 7 }] (by decide) rfl rfl).2.2.2.2.1⟩

/-- C8, refuted as stated: after `join`, `leave` of session 1, a second `join` of
session 1 is not dropped, under either behaviour of `addUser` on a present
session: the session is in the registry again, and the cursor, `setBrush` and plot events that
follow create a reticle, store the brush and apply it. -/
theorem join_after_leave_is_applied :
    (runWallEvents .fail (fun _ wall _ _ => wall.chunks) (Client.init 0 256 [])
        [{ sessionId := 1, kind := .join "ann" "dot" },
         { sessionId := 1, kind := .leave },
         { sessionId := 1, kind := .join "ann" "dot" }]).wall.onlineUsers.getUser 1 =
        some { nickname := "ann", brush := "dot", reticle := none } ∧
      (runWallEvents .fail (fun _ wall _ _ => wall.chunks) (Client.init 0 256 [])
        [{ sessionId := 1, kind := .join "ann" "dot" },
         { sessionId := 1, kind := .leave },
         { sessionId := 1, kind := .join "ann" "dot" },
         { sessionId := 1, kind := .cursor { x := 5, y := 5 } },
         { sessionId := 1, kind := .setBrush "line" },
         { sessionId := 1, kind := .plot [{ x := 2, y := 3 }] }]).calls =
        [.newReticleCursor 0 "ann", .addReticle 0, .renderBrushToChunks 1 "line" 2 3] ∧
      (runWallEvents .replace (fun _ wall _ _ => wall.chunks) (Client.init 0 256 [])
        [{ sessionId := 1, kind := .join "ann" "dot" },
         { sessionId := 1, kind := .leave },
         { sessionId := 1, kind := .join "ann" "dot" }]).wall.onlineUsers.getUser 1 =
        some { nickname := "ann", brush := "dot", reticle := none } ∧
      (runWallEvents .replace (fun _ wall _ _ => wall.chunks) (Client.init 0 256 [])
        [{ sessionId := 1, kind := .join "ann" "dot" },
         { sessionId := 1, kind := .leave },
         { sessionId := 1, kind := .join "ann" "dot" },
         { sessionId := 1, kind := .cursor { x := 5, y := 5 } },
         { sessionId := 1, kind := .setBrush "line" },
         { sessionId := 1, kind := .plot [{ x := 2, y := 3 }] }]).calls =
        [.newReticleCursor 0 "ann", .addReticle 0, .renderBrushToChunks 1 "line" 2 3] := by
  refine ⟨by decide, by decide, by decide, by decide⟩

/-- C8, amended: let `c₁` be the client after a leave of a remote session `S`, and
let `events` be any later wall events, of any sessions, among which no event of
`S` is a join. Then `S` is in the registry neither in `c₁` nor after `events`, and
every event of `S` among them is dropped: all it does is log one warning, so no
reticle is created and no brush is applied for `S`. A join of `S` after `events`
puts `S` back into the registry, without a reticle, and the events of `S` that
follow are applied: a cursor event creates a reticle at its position, a
`setBrush` event stores the brush, a plot event applies the brush at each point. -/
theorem dropped_after_leave (duplicates : DuplicatePolicy) (engine : BrushEngine)
    (c c₁ c₂ : Client) (S : SessionId) (events : List WallEvent) (nickname brush : String)
    (hS : S ≠ c.sessionId)
    (hleave : c₁ = onWallEvent duplicates engine c { sessionId := S, kind := .leave })
    (hev : ∀ ev ∈ events, ev.sessionId = S → ∀ n b, ev.kind ≠ .join n b)
    (hjoin : c₂ = onWallEvent duplicates engine (runWallEvents duplicates engine c₁ events)
      { sessionId := S, kind := .join nickname brush }) :
    c₁.wall.onlineUsers.getUser S = none ∧
      (runWallEvents duplicates engine c₁ events).wall.onlineUsers.getUser S = none ∧
      (∀ (pre post : List WallEvent) (ev : WallEvent),
        events = pre ++ ev :: post → ev.sessionId = S →
        onWallEvent duplicates engine (runWallEvents duplicates engine c₁ pre) ev =
          (runWallEvents duplicates engine c₁ pre).call (.warn ev)) ∧
      c₂.wall.onlineUsers.getUser S =
        some { nickname := nickname, brush := brush, reticle := none } ∧
      (∀ position : Point,
        (onWallEvent duplicates engine c₂
            { sessionId := S, kind := .cursor position }).wall.onlineUsers.getUser S =
          some { nickname := nickname, brush := brush,
                 reticle := some { id := c₂.nextReticle, nickname := nickname,
                                   cursor := some (position.x, position.y) } } ∧
        (onWallEvent duplicates engine c₂ { sessionId := S, kind := .cursor position }).calls =
          c₂.calls ++ [.newReticleCursor c₂.nextReticle nickname, .addReticle c₂.nextReticle]) ∧
      (∀ brush' : String,
        (onWallEvent duplicates engine c₂
            { sessionId := S, kind := .setBrush brush' }).wall.onlineUsers.getUser S =
          some { nickname := nickname, brush := brush', reticle := none }) ∧
      (∀ points : List Point,
        (onWallEvent duplicates engine c₂ { sessionId := S, kind := .plot points }).calls =
          c₂.calls ++ points.map (fun p => .renderBrushToChunks S brush p.x p.y)) := by
  have hS₁ : S ≠ c₁.sessionId := by rw [hleave, onWallEvent_sessionId]; exact hS
  have hnone : c₁.wall.onlineUsers.getUser S = none := by
    rw [hleave]; exact getUser_after_leave duplicates engine c S hS
  have habsent := runWallEvents_absent duplicates engine S events c₁ hS₁ hnone hev
  have hSrun : S ≠ (runWallEvents duplicates engine c₁ events).sessionId := by
    rw [runWallEvents_sessionId]; exact hS₁
  have hc₂ : c₂ =
      { runWallEvents duplicates engine c₁ events with
        wall.onlineUsers.users :=
          (runWallEvents duplicates engine c₁ events).wall.onlineUsers.users.set S
            { nickname := nickname, brush := brush, reticle := none } } := by
    rw [hjoin]
    exact onWallEvent_join duplicates engine _ S nickname brush hSrun (Or.inr habsent)
  have hS₂ : S ≠ c₂.sessionId := by rw [hjoin, onWallEvent_sessionId]; exact hSrun
  have hu₂ : c₂.wall.onlineUsers.getUser S =
      some { nickname := nickname, brush := brush, reticle := none } := by
    rw [hc₂]
    simp only [OnlineUsers.getUser, JsMap.get_set_self]
  refine ⟨hnone, habsent, ?_, hu₂, ?_, ?_, ?_⟩
  · intro pre post ev hsplit hid
    have hpre : ∀ e ∈ pre, e.sessionId = S → ∀ n b, e.kind ≠ .join n b := by
      intro e he
      exact hev e (by rw [hsplit]; exact List.mem_append_left _ he)
    have hmem : ev ∈ events := by
      rw [hsplit]; exact List.mem_append_right _ (List.mem_cons_self _ _)
    exact onWallEvent_unknown duplicates engine _ ev
      (by rw [hid, runWallEvents_sessionId]; exact hS₁)
      (by rw [hid]; exact runWallEvents_absent duplicates engine S pre c₁ hS₁ hnone hpre)
      (hev ev hmem hid)
  · intro position
    rw [onWallEvent_cursor_first duplicates engine c₂ S _ position hS₂ hu₂ rfl]
    refine ⟨?_, rfl⟩
    simp only [OnlineUsers.getUser, JsMap.get_set_self]
  · intro brush'
    rw [onWallEvent_setBrush duplicates engine c₂ S _ brush' hS₂ hu₂]
    simp only [OnlineUsers.getUser, JsMap.get_set_self, User.setBrush]
  · intro points
    rw [onWallEvent_plot duplicates engine c₂ S _ points hS₂ hu₂]

/-- C8, amended, at a concrete client: session 1 leaves; then session 3 joins,
session 2 moves its cursor and session 1 sends a cursor and a plot event; session
1 is still not in the registry, and its plot event, which comes last, only logs
a warning. -/
theorem dropped_after_leave_witness :
    (runWallEvents .fail (fun _ wall _ _ => wall.chunks)
        (onWallEvent .fail (fun _ wall _ _ => wall.chunks)
          (Client.init 0 256
            [(1, { nickname := "ann", brush := "dot", reticle := none }),
             (2, { nickname := "bob", brush := "line", reticle := none })])
          { sessionId := 1, kind := .leave })
        [{ sessionId := 3, kind := .join "cyd" "dot" },
         { sessionId := 1, kind := .cursor { x := 5, y := 5 } },
         { sessionId := 2, kind := .cursor { x := 6, y := 6 } },
         { sessionId := 1, kind := .plot [{ x := 2, y := 3 }] }]).wall.onlineUsers.getUser 1 =
      none :=
  (dropped_after_leave .fail (fun _ wall _ _ => wall.chunks)
    (Client.init 0 256
      [(1, { nickname := "ann", brush := "dot", reticle := none }),
       (2, { nickname := "bob", brush := "line", reticle := none })])
    _ _ 1
    [{ sessionId := 3, kind := .join "cyd" "dot" },
     { sessionId := 1, kind := .cursor { x := 5, y := 5 } },
     { sessionId := 2, kind := .cursor { x := 6, y := 6 } },
     { sessionId := 1, kind := .plot [{ x := 2, y := 3 }] }] "ann" "dot" (by decide) rfl
    (by
      intro ev hev hid n b
      simp only [List.mem_cons, List.mem_singleton, List.not_mem_nil, or_false] at hev
      rcases hev with rfl | rfl | rfl | rfl
      · exact absurd hid (by decide)
      · intro h; cases h
      · exact absurd hid (by decide)
      · intro h; cases h)
    rfl).2.1

/-- C9. Unknown-user drop: a `leave`, `cursor`, `setBrush` or `plot` event whose
session is neither the local one nor in the registry only logs a warning: the
wall (registry and chunk store), the reticles of the renderer and every other
field are as before, and no call other than `console.warn` is made. -/
theorem unknown_user_dropped (duplicates : DuplicatePolicy) (engine : BrushEngine)
    (c : Client) (ev : WallEvent)
    (hS : ev.sessionId ≠ c.sessionId)
    (hu : c.wall.onlineUsers.getUser ev.sessionId = none)
    (hk : ∀ nickname brush, ev.kind ≠ .join nickname brush) :
    onWallEvent duplicates engine c ev = { c with calls := c.calls ++ [.warn ev] } ∧
      (onWallEvent duplicates engine c ev).wall = c.wall ∧
      (onWallEvent duplicates engine c ev).reticles = c.reticles ∧
      (onWallEvent duplicates engine c ev).nextReticle = c.nextReticle ∧
      (onWallEvent duplicates engine c ev).calls = c.calls ++ [.warn ev] := by
  rw [onWallEvent_unknown duplicates engine c ev hS hu hk]
  exact ⟨rfl, rfl, rfl, rfl, rfl⟩

/-- C9, at a concrete client: a cursor event of the unknown session 4 only logs a
warning. -/
theorem unknown_user_dropped_witness :
    (onWallEvent .replace (fun _ wall _ _ => wall.chunks)
        (Client.init 0 256 [(1, { nickname := "ann", brush := "dot", reticle := none })])
        { sessionId := 4, kind := .cursor { x := 5, y := 5 } }).wall =
      (Client.init 0 256 [(1, { nickname := "ann", brush := "dot", reticle := none })]).wall :=
  (unknown_user_dropped .replace (fun _ wall _ _ => wall.chunks)
    (Client.init 0 256 [(1, { nickname := "ann", brush := "dot", reticle := none })])
    { sessionId := 4, kind := .cursor { x := 5, y := 5 } } (by decide) (by decide)
    (by intro _ _ h; cases h)).2.1

/-- C10. Own-session events are ignored: a wall event of any kind whose session is
the local session leaves the client exactly as it is, so the registry, the
reticle renderer and the chunk store are unchanged and no call is made. -/
theorem own_event_ignored (duplicates : DuplicatePolicy) (engine : BrushEngine)
    (c : Client) (ev : WallEvent)
    (h : ev.sessionId = c.sessionId) :
    onWallEvent duplicates engine c ev = c :=
  onWallEvent_own duplicates engine c ev h

/-- C10, at a concrete client: a `leave` event of the local session 0 changes
nothing. -/
theorem own_event_ignored_witness :
    onWallEvent .replace (fun _ wall _ _ => wall.chunks)
        (Client.init 0 256 [(0, { nickname := "me", brush := "dot", reticle := none })])
        { sessionId := 0, kind := .leave } =
      Client.init 0 256 [(0, { nickname := "me", brush := "dot", reticle := none })] :=
  own_event_ignored .replace (fun _ wall _ _ => wall.chunks)
    (Client.init 0 256 [(0, { nickname := "me", brush := "dot", reticle := none })])
    { sessionId := 0, kind := .leave } rfl

/-- The reticle invariant where it holds: start from a registry in which no user
has a reticle and run any finite sequence of wall events, and let `addUser`
replace a present entry, or let no join of `S` arrive while `S` is in the
registry. Then the user record of a remote session `S` has a reticle if and only
if `S` is in the registry and a cursor event of `S` has arrived since the last
join event of `S`. -/
theorem reticle_iff_cursor_since_join (duplicates : DuplicatePolicy) (engine : BrushEngine)
    (c : Client) (events : List WallEvent) (S : SessionId)
    (hS : S ≠ c.sessionId)
    (hnone : ∀ S' user, c.wall.onlineUsers.getUser S' = some user → user.reticle = none)
    (hre : duplicates = .replace ∨
      ∀ (pre post : List WallEvent) (n b : String),
        events = pre ++ { sessionId := S, kind := .join n b } :: post →
        (runWallEvents duplicates engine c pre).wall.onlineUsers.getUser S = none) :
    (∃ user reticle,
        (runWallEvents duplicates engine c events).wall.onlineUsers.getUser S = some user ∧
          user.reticle = some reticle) ↔
      ((runWallEvents duplicates engine c events).wall.onlineUsers.getUser S ≠ none ∧
        cursorSinceJoin S events = true) := by
  have h₀ : ReticleInv S c false := by
    intro user hu
    rw [hnone S user hu]
    rfl
  have h := reticleInv_run duplicates engine S events c false hS h₀ hre
  constructor
  · rintro ⟨user, reticle, hu, hr⟩
    refine ⟨by rw [hu]; simp, ?_⟩
    have := h user hu
    rw [hr] at this
    exact this.symm
  · rintro ⟨hin, hseen⟩
    cases hu : (runWallEvents duplicates engine c events).wall.onlineUsers.getUser S with
    | none => exact absurd hu hin
    | some user =>
      have hsome : user.reticle.isSome = true := (h user hu).trans hseen
      obtain ⟨reticle, hr⟩ := Option.isSome_iff_exists.mp hsome
      exact ⟨user, reticle, rfl, hr⟩

/-- C11, at the failing input: session 1 joins, moves its cursor and joins again,
so no cursor event of session 1 has arrived since its last join. If `addUser`
fails on the present session, session 1 still has the reticle of its first
record. If `addUser` replaces the entry, the new record has no reticle, but the
reticle made for the first record is still in the reticle renderer,
`removeReticle` has not been called, and after a leave of session 1 the reticle
is in the renderer still. -/
theorem rejoin_breaks_reticle_invariant :
    cursorSinceJoin 1
        [{ sessionId := 1, kind := .join "ann" "dot" },
         { sessionId := 1, kind := .cursor { x := 5, y := 5 } },
         { sessionId := 1, kind := .join "ann" "dot" }] = false ∧
      (runWallEvents .fail (fun _ wall _ _ => wall.chunks) (Client.init 0 256 [])
        [{ sessionId := 1, kind := .join "ann" "dot" },
         { sessionId := 1, kind := .cursor { x := 5, y := 5 } },
         { sessionId := 1, kind := .join "ann" "dot" }]).wall.onlineUsers.getUser 1 =
        some { nickname := "ann", brush := "dot",
               reticle := some { id := 0, nickname := "ann", cursor := some (5, 5) } } ∧
      (runWallEvents .replace (fun _ wall _ _ => wall.chunks) (Client.init 0 256 [])
        [{ sessionId := 1, kind := .join "ann" "dot" },
         { sessionId := 1, kind := .cursor { x := 5, y := 5 } },
         { sessionId := 1, kind := .join "ann" "dot" }]).wall.onlineUsers.getUser 1 =
        some { nickname := "ann", brush := "dot", reticle := none } ∧
      (runWallEvents .replace (fun _ wall _ _ => wall.chunks) (Client.init 0 256 [])
        [{ sessionId := 1, kind := .join "ann" "dot" },
         { sessionId := 1, kind := .cursor { x := 5, y := 5 } },
         { sessionId := 1, kind := .join "ann" "dot" }]).reticles = [0] ∧
      (runWallEvents .replace (fun _ wall _ _ => wall.chunks) (Client.init 0 256 [])
        [{ sessionId := 1, kind := .join "ann" "dot" },
         { sessionId := 1, kind := .cursor { x := 5, y := 5 } },
         { sessionId := 1, kind := .join "ann" "dot" }]).calls =
        [.newReticleCursor 0 "ann", .addReticle 0] ∧
      (runWallEvents .replace (fun _ wall _ _ => wall.chunks) (Client.init 0 256 [])
        [{ sessionId := 1, kind := .join "ann" "dot" },
         { sessionId := 1, kind := .cursor { x := 5, y := 5 } },
         { sessionId := 1, kind := .join "ann" "dot" },
         { sessionId := 1, kind := .leave }]).wall.onlineUsers.getUser 1 = none ∧
      (runWallEvents .replace (fun _ wall _ _ => wall.chunks) (Client.init 0 256 [])
        [{ sessionId := 1, kind := .join "ann" "dot" },
         { sessionId := 1, kind := .cursor { x := 5, y := 5 } },
         { sessionId := 1, kind := .join "ann" "dot" },
         { sessionId := 1, kind := .leave }]).reticles = [0] := by
  refine ⟨by decide, by decide, by decide, by decide, by decide, by decide, by decide⟩

/-- C12. Brush-change ordering: when a brush change is triggered in a client whose
current user is in the registry, the calls made are `sendPlot` with the whole
queue, in queue order, if and only if the queue is not empty, followed by exactly
one `sendSetBrush` with the new code; the queue is empty afterwards, and the
brush of the current user is the new code. -/
theorem codeChanged_flushes_first (code : String) (c : Client) (user : User)
    (hu : c.wall.onlineUsers.getUser c.sessionId = some user) :
    (onCodeChanged code c).calls =
        c.calls ++ (if c.plotQueue = [] then [] else [.sendPlot c.plotQueue]) ++
          [.sendSetBrush code] ∧
      (onCodeChanged code c).plotQueue = [] ∧
      (onCodeChanged code c).wall.onlineUsers.getUser c.sessionId =
        some (user.setBrush code) := by
  rw [onCodeChanged_eq code c user hu]
  refine ⟨rfl, rfl, ?_⟩
  simp only [OnlineUsers.getUser, JsMap.get_set_self]

/-- C12, at a concrete client: with two points queued, the brush change sends them
in one `sendPlot` and then `sendSetBrush`. -/
theorem codeChanged_flushes_first_witness :
    (onCodeChanged "line"
        { Client.init 0 256 [(0, { nickname := "me", brush := "dot", reticle := none })] with
          plotQueue := [{ x := 1, y := 2 }, { x := 3, y := 4 }] }).calls =
      [.sendPlot [{ x := 1, y := 2 }, { x := 3, y := 4 }], .sendSetBrush "line"] :=
  (codeChanged_flushes_first "line"
    { Client.init 0 256 [(0, { nickname := "me", brush := "dot", reticle := none })] with
      plotQueue := [{ x := 1, y := 2 }, { x := 3, y := 4 }] }
    { nickname := "me", brush := "dot", reticle := none } rfl).1.trans (by decide)

/-- C13. Flush semantics and idempotence: `flushPlotQueue` empties the queue; it
makes exactly one call, `sendPlot` with the whole queue, when the queue is not
empty, and changes nothing when the queue is empty; so a second flush right after
a flush makes no call and changes nothing. -/
theorem flush_idempotent (c : Client) :
    (flushPlotQueue c).plotQueue = [] ∧
      (c.plotQueue ≠ [] → (flushPlotQueue c).calls = c.calls ++ [.sendPlot c.plotQueue]) ∧
      (c.plotQueue = [] → flushPlotQueue c = c) ∧
      flushPlotQueue (flushPlotQueue c) = flushPlotQueue c ∧
      (flushPlotQueue (flushPlotQueue c)).calls = (flushPlotQueue c).calls := by
  have hempty : ∀ c' : Client, c'.plotQueue = [] → flushPlotQueue c' = c' := by
    intro c' h
    rw [flushPlotQueue_eq, h]
    cases c'
    simp only [if_true, List.append_nil] at *
    rw [h]
  have hq : (flushPlotQueue c).plotQueue = [] := by rw [flushPlotQueue_eq]
  refine ⟨hq, ?_, hempty c, hempty _ hq, by rw [hempty _ hq]⟩
  intro hne
  rw [flushPlotQueue_eq]
  simp only [hne, if_false]

/-- C13, at a concrete client: a flush of a queue of one point sends that point,
and both an empty queue and a second flush send nothing. -/
theorem flush_idempotent_witness :
    (flushPlotQueue { Client.init 0 256 [] with plotQueue := [{ x := 1, y := 2 }] }).calls =
        [.sendPlot [{ x := 1, y := 2 }]] ∧
      flushPlotQueue (Client.init 0 256 []) = Client.init 0 256 [] :=
  ⟨(flush_idempotent { Client.init 0 256 [] with plotQueue := [{ x := 1, y := 2 }] }).2.1
      (by decide),
    (flush_idempotent (Client.init 0 256 [])).2.2.1 rfl⟩

/-- C14. Plot routing: for a plot event of a remote session `S` that is in the
registry, the brush engine is called once per point, in the order of the points,
each time for the user record of `S`, with that user's brush, and on the wall as
the earlier points left it; the registry and the reticle renderer are unchanged. -/
theorem plot_routes_each_point (duplicates : DuplicatePolicy) (engine : BrushEngine)
    (c : Client) (S : SessionId)
    (user : User) (points : List Point)
    (hS : S ≠ c.sessionId) (hu : c.wall.onlineUsers.getUser S = some user) :
    (onWallEvent duplicates engine c { sessionId := S, kind := .plot points }).calls =
        c.calls ++ points.map (fun p => .renderBrushToChunks S user.brush p.x p.y) ∧
      (onWallEvent duplicates engine c { sessionId := S, kind := .plot points }).wall =
        points.foldl (fun wall p => { wall with chunks := engine user wall p.x p.y }) c.wall ∧
      (onWallEvent duplicates engine c { sessionId := S, kind := .plot points }).wall.onlineUsers =
        c.wall.onlineUsers ∧
      (onWallEvent duplicates engine c { sessionId := S, kind := .plot points }).reticles = c.reticles ∧
      (onWallEvent duplicates engine c { sessionId := S, kind := .plot points }).nextReticle =
        c.nextReticle := by
  rw [onWallEvent_plot duplicates engine c S user points hS hu]
  exact ⟨rfl, rfl, (brushFold_onlineUsers engine user points c.wall).1, rfl, rfl⟩

/-- C14, at a concrete client: a plot event of session 1 with two points applies
the brush of session 1 at the first point, then at the second. -/
theorem plot_routes_each_point_witness :
    (onWallEvent .replace (fun _ wall _ _ => wall.chunks)
        (Client.init 0 256
          [(1, { nickname := "ann", brush := "dot", reticle := none }),
           (2, { nickname := "bob", brush := "line", reticle := none })])
        { sessionId := 1, kind := .plot [{ x := 1, y := 2 }, { x := 3, y := 4 }] }).calls =
      [.renderBrushToChunks 1 "dot" 1 2, .renderBrushToChunks 1 "dot" 3 4] :=
  (plot_routes_each_point .replace (fun _ wall _ _ => wall.chunks)
    (Client.init 0 256
      [(1, { nickname := "ann", brush := "dot", reticle := none }),
       (2, { nickname := "bob", brush := "line", reticle := none })])
    1 { nickname := "ann", brush := "dot", reticle := none }
    [{ x := 1, y := 2 }, { x := 3, y := 4 }] (by decide) rfl).1

/-- C15. Chunk store lazy creation: on a new wall `getChunk(x, y)` is undefined,
and it stays undefined over any calls of the store other than
`getOrCreateChunk(x, y)`. While it is undefined, `getOrCreateChunk(x, y)` returns
a new chunk whose pixmap and canvas are `chunkSize × chunkSize`, and adds that one
entry to the store. From then on, after any further calls of the store,
`getChunk(x, y)` and `getOrCreateChunk(x, y)` return that chunk, and
`getOrCreateChunk(x, y)` leaves the store as it is. Whenever a chunk is stored at
`(x, y)`, whatever its pixels, `getOrCreateChunk(x, y)` returns that very chunk
and the wall is unchanged, also after any further calls of the store. -/
theorem chunk_created_once (wall : Wall) (x y : Int) :
    (∀ (chunkSize : Nat) (users : JsMap SessionId User),
        (Wall.new chunkSize users).getChunk x y = none) ∧
      (∀ ops : List WallOp, wall.getChunk x y = none →
        (∀ op ∈ ops, op ≠ .getOrCreateChunk x y) →
        (wall.applyAll ops).getChunk x y = none) ∧
      (wall.getChunk x y = none →
        (wall.getOrCreateChunk x y).1 = Chunk.new wall.chunkSize ∧
        (wall.getOrCreateChunk x y).1.size = wall.chunkSize ∧
        (wall.getOrCreateChunk x y).1.pixmap.length = wall.chunkSize * wall.chunkSize * 4 ∧
        (wall.getOrCreateChunk x y).1.canvas.length = wall.chunkSize * wall.chunkSize * 4 ∧
        (wall.getOrCreateChunk x y).2.chunks =
          wall.chunks ++ [(chunkKey x y, (wall.getOrCreateChunk x y).1)]) ∧
      (∀ ops : List WallOp,
        ((wall.getOrCreateChunk x y).2.applyAll ops).getChunk x y =
            some (wall.getOrCreateChunk x y).1 ∧
          ((wall.getOrCreateChunk x y).2.applyAll ops).getOrCreateChunk x y =
            ((wall.getOrCreateChunk x y).1, (wall.getOrCreateChunk x y).2.applyAll ops)) ∧
      (∀ chunk : Chunk, wall.getChunk x y = some chunk →
        wall.getOrCreateChunk x y = (chunk, wall)) ∧
      (∀ (chunk : Chunk) (ops : List WallOp), wall.getChunk x y = some chunk →
        (wall.applyAll ops).getChunk x y = some chunk ∧
          (wall.applyAll ops).getOrCreateChunk x y = (chunk, wall.applyAll ops)) := by
  refine ⟨fun _ _ => rfl, fun ops h hops => applyAll_getChunk_none ops x y wall h hops, ?_, ?_,
    fun chunk h => getOrCreateChunk_of_some wall x y chunk h, ?_⟩
  · intro h
    rw [getOrCreateChunk_of_none wall x y h]
    refine ⟨rfl, rfl, ?_, ?_, ?_⟩
    · simp [Chunk.new, blankPixels]
    · simp [Chunk.new, blankPixels]
    · exact JsMap.set_of_get_none _ _ _ h
  · intro ops
    have h := applyAll_getChunk_some ops x y _ _ (getOrCreateChunk_getChunk_self wall x y)
    exact ⟨h, getOrCreateChunk_of_some _ x y _ h⟩
  · intro chunk ops h
    have h' := applyAll_getChunk_some ops x y chunk wall h
    exact ⟨h', getOrCreateChunk_of_some _ x y chunk h'⟩

/-- C15, at concrete walls: on a new wall of chunk size 1 the chunk at `(2,-3)` is
created by `getOrCreateChunk(2, -3)` with four zero bytes, and it is not there
after a `getOrCreateChunk(0, 0)` alone; and on a wall that stores a painted chunk
at `(0,0)`, `getOrCreateChunk(0, 0)` returns the painted chunk and changes
nothing. -/
theorem chunk_created_once_witness :
    (Wall.new 1 []).getChunk 2 (-3) = none ∧
      ((Wall.new 1 []).getOrCreateChunk 2 (-3)).1 =
        { size := 1, pixmap := [0, 0, 0, 0], canvas := [0, 0, 0, 0] } ∧
      ((Wall.new 1 []).applyAll [.getOrCreateChunk 0 0]).getChunk 2 (-3) = none ∧
      Wall.getOrCreateChunk
          { chunkSize := 1
            chunks := [("(0,0)", { size := 1, pixmap := [9, 8, 7, 255],
                                   canvas := [9, 8, 7, 255] })]
            onlineUsers := { users := [] } } 0 0 =
        ({ size := 1, pixmap := [9, 8, 7, 255], canvas := [9, 8, 7, 255] },
          { chunkSize := 1
            chunks := [("(0,0)", { size := 1, pixmap := [9, 8, 7, 255],
                                   canvas := [9, 8, 7, 255] })]
            onlineUsers := { users := [] } }) :=
  ⟨rfl,
    ((chunk_created_once (Wall.new 1 []) 2 (-3)).2.2.1 rfl).1.trans (by decide),
    (chunk_created_once (Wall.new 1 []) 2 (-3)).2.1 [.getOrCreateChunk 0 0] rfl
      (by decide),
    (chunk_created_once
      { chunkSize := 1
        chunks := [("(0,0)", { size := 1, pixmap := [9, 8, 7, 255],
                               canvas := [9, 8, 7, 255] })]
        onlineUsers := { users := [] } } 0 0).2.2.2.2.1
      { size := 1, pixmap := [9, 8, 7, 255], canvas := [9, 8, 7, 255] } (by decide)⟩

/-- C16. Stalled request: start from an empty tracker and run any viewport updates
and `chunks` events. If a key is requested then, it is still requested after any
further viewport updates and `chunks` events none of which has an entry for the
key, it is still counted among the requested keys, and `pendingChunks` is at
least 1. -/
theorem stalled_request_stays (c₀ : Client) (before after : List TrackerEvent) (key : String)
    (hmap : c₀.chunkDownloadStates = []) (hcount : c₀.pendingChunks = 0)
    (hreq : (trackerRun c₀ before).chunkDownloadStates.get key = some .requested)
    (hafter : ∀ ev ∈ after, namesKey key ev = false) :
    (trackerRun (trackerRun c₀ before) after).chunkDownloadStates.get key = some .requested ∧
      key ∈ requestedKeys (trackerRun (trackerRun c₀ before) after).chunkDownloadStates ∧
      1 ≤ (trackerRun (trackerRun c₀ before) after).pendingChunks := by
  have h₀ : TrackerInv c₀ := by
    unfold TrackerInv
    rw [hmap, hcount]
    simp [JsMap.keys, requestedKeys]
  have hinv := trackerInv_trackerRun _ after (trackerInv_trackerRun c₀ before h₀)
  have hstay := trackerRun_requested_stays after key _ hreq hafter
  have hmem := (mem_requestedKeys _ key hinv.1).mpr hstay
  refine ⟨hstay, hmem, ?_⟩
  rw [hinv.2]
  have : 0 < (requestedKeys (trackerRun (trackerRun c₀ before) after).chunkDownloadStates).length :=
    List.length_pos_of_mem hmem
  omega

/-- C16, at a concrete run: `(0,0)` and `(1,0)` are requested, then the data of
`(1,0)` arrives and the viewport is updated again; `(0,0)` is still requested and
one chunk is pending. -/
theorem stalled_request_stays_witness :
    (trackerRun
        (trackerRun (Client.init 7 256 [])
          [.viewportUpdate { left := 0, right := 2, top := 0, bottom := 1 }])
        [.chunks { chunkInfo := [{ position := { x := 1, y := 0 }, offset := 0, length := 0 }],
                   chunkData := [] },
         .viewportUpdate { left := 0, right := 2, top := 0, bottom := 1 }]).chunkDownloadStates.get
          (chunkKey 0 0) = some .requested ∧
      (trackerRun
        (trackerRun (Client.init 7 256 [])
          [.viewportUpdate { left := 0, right := 2, top := 0, bottom := 1 }])
        [.chunks { chunkInfo := [{ position := { x := 1, y := 0 }, offset := 0, length := 0 }],
                   chunkData := [] },
         .viewportUpdate { left := 0, right := 2, top := 0, bottom := 1 }]).pendingChunks = 1 :=
  ⟨(stalled_request_stays (Client.init 7 256 [])
      [.viewportUpdate { left := 0, right := 2, top := 0, bottom := 1 }]
      [.chunks { chunkInfo := [{ position := { x := 1, y := 0 }, offset := 0, length := 0 }],
                 chunkData := [] },
       .viewportUpdate { left := 0, right := 2, top := 0, bottom := 1 }]
      (chunkKey 0 0) rfl rfl (by decide) (by decide)).1,
    by decide⟩

/-- C17. Cursor debounce: let a burst of cursor events reach an idle `reportCursor`,
each event less than `updateInterval` after the one before. Then no call is made
during the burst, none is made before one interval has passed since the last
event, and once it has passed exactly one call has been made, `sendCursor` with
the position of the last event; no further call follows. -/
theorem cursor_burst_sends_last (r : CursorReporter) (m : CursorMove) (ms : List CursorMove)
    (hidle : r.timeout = none)
    (hburst : List.Chain (fun a b : CursorMove => b.time < a.time + updateInterval) m ms) :
    (r.run (m :: ms)).calls = r.calls ∧
      (∀ now : ℚ, now < ((m :: ms).getLast (List.cons_ne_nil m ms)).time + updateInterval →
        ((r.run (m :: ms)).elapse now).calls = r.calls) ∧
      (∀ now : ℚ, ((m :: ms).getLast (List.cons_ne_nil m ms)).time + updateInterval ≤ now →
        ((r.run (m :: ms)).elapse now).calls =
            r.calls ++ [.sendCursor ((m :: ms).getLast (List.cons_ne_nil m ms)).x
              ((m :: ms).getLast (List.cons_ne_nil m ms)).y] ∧
          ∀ later : ℚ, ((r.run (m :: ms)).elapse now).elapse later =
            (r.run (m :: ms)).elapse now) := by
  have hstep : r.run (m :: ms) = (r.reportCursor m.time m.x m.y).run ms := rfl
  have hr : r.elapse m.time = r := by
    simp only [CursorReporter.elapse, hidle]
  obtain ⟨h1, h2⟩ := reportCursor_run_burst ms m r hburst
  rw [hr] at h1
  rw [← hstep] at h1 h2
  refine ⟨h1, ?_, ?_⟩
  · intro now hnow
    simp only [CursorReporter.elapse, h2]
    rw [if_neg (not_le.mpr hnow)]
    exact h1
  · intro now hnow
    have hfire : (r.run (m :: ms)).elapse now =
        { timeout := none
          calls := r.calls ++ [.sendCursor ((m :: ms).getLast (List.cons_ne_nil m ms)).x
            ((m :: ms).getLast (List.cons_ne_nil m ms)).y] } := by
      simp only [CursorReporter.elapse, h2]
      rw [if_pos hnow, h1]
    rw [hfire]
    exact ⟨rfl, fun _ => rfl⟩

/-- C17, at a concrete burst: cursor events at 0, 10 and 20 milliseconds reach an
idle `reportCursor`; at 30 milliseconds nothing has been sent, at 40 milliseconds
the position of the third event has been sent, once. -/
theorem cursor_burst_sends_last_witness :
    ((CursorReporter.run { timeout := none, calls := [] }
        [{ time := 0, x := 1, y := 1 }, { time := 10, x := 2, y := 2 },
          { time := 20, x := 3, y := 3 }]).elapse 30).calls = [] ∧
      ((CursorReporter.run { timeout := none, calls := [] }
        [{ time := 0, x := 1, y := 1 }, { time := 10, x := 2, y := 2 },
          { time := 20, x := 3, y := 3 }]).elapse 40).calls = [.sendCursor 3 3] :=
  ⟨(cursor_burst_sends_last { timeout := none, calls := [] } { time := 0, x := 1, y := 1 }
      [{ time := 10, x := 2, y := 2 }, { time := 20, x := 3, y := 3 }] rfl
      (by
        refine List.Chain.cons ?_ (List.Chain.cons ?_ List.Chain.nil) <;>
          norm_num [updateInterval])).2.1 30
      (by norm_num [updateInterval]),
    ((cursor_burst_sends_last { timeout := none, calls := [] } { time := 0, x := 1, y := 1 }
      [{ time := 10, x := 2, y := 2 }, { time := 20, x := 3, y := 3 }] rfl
      (by
        refine List.Chain.cons ?_ (List.Chain.cons ?_ List.Chain.nil) <;>
          norm_num [updateInterval])).2.2 40
      (by norm_num [updateInterval])).1⟩

/-- C18. Plot conservation: start from an empty queue with no batch sent, and run
any finite sequence of paint events, ticks and brush changes. The batches of the
`sendPlot` calls, in call order, followed by the points still queued, are the
painted points in paint order, and no batch is empty. -/
theorem plot_points_conserved (engine : BrushEngine) (c₀ : Client) (events : List LocalEvent)
    (hqueue : c₀.plotQueue = []) (hsent : plotBatches c₀.calls = []) :
    (plotBatches (localRun engine c₀ events).calls).flatten ++
          (localRun engine c₀ events).plotQueue =
        paintedPoints events ∧
      (∀ batch ∈ plotBatches (localRun engine c₀ events).calls, batch ≠ []) := by
  obtain ⟨h1, h2⟩ := localRun_batches engine events c₀
  rw [hqueue, hsent] at h1
  refine ⟨by simpa using h1, ?_⟩
  intro batch hb he
  rw [he] at hb
  exact h2 (by rw [hsent]; simp) hb

/-- C18, at a concrete run: two points painted, a tick, a third point, a brush
change and a fourth point give the batches of two and of one point and leave the
fourth point queued. -/
theorem plot_points_conserved_witness :
    (plotBatches (localRun (fun _ wall _ _ => wall.chunks)
        (Client.init 0 256 [(0, { nickname := "me", brush := "dot", reticle := none })])
        [.paint 1 1, .paint 2 2, .tick, .tick, .paint 3 3, .codeChanged "line",
          .paint 4 4]).calls).flatten ++
        (localRun (fun _ wall _ _ => wall.chunks)
          (Client.init 0 256 [(0, { nickname := "me", brush := "dot", reticle := none })])
          [.paint 1 1, .paint 2 2, .tick, .tick, .paint 3 3, .codeChanged "line",
            .paint 4 4]).plotQueue =
      [{ x := 1, y := 1 }, { x := 2, y := 2 }, { x := 3, y := 3 }, { x := 4, y := 4 }] :=
  (plot_points_conserved (fun _ wall _ _ => wall.chunks)
    (Client.init 0 256 [(0, { nickname := "me", brush := "dot", reticle := none })])
    [.paint 1 1, .paint 2 2, .tick, .tick, .paint 3 3, .codeChanged "line", .paint 4 4]
    rfl rfl).1.trans (by decide)

/-- C19. Key injectivity: `chunkKey` gives the same string for two integer pairs
if and only if the pairs are equal, negative coordinates included. -/
theorem chunkKey_eq_iff (x₁ y₁ x₂ y₂ : Int) :
    chunkKey x₁ y₁ = chunkKey x₂ y₂ ↔ x₁ = x₂ ∧ y₁ = y₂ := by
  constructor
  · exact chunkKey_injective x₁ y₁ x₂ y₂
  · rintro ⟨rfl, rfl⟩
    rfl

/-- C19, at concrete pairs: the keys of `(1,-2)` and `(-1,2)` are the strings
`(1,-2)` and `(-1,2)`, and the keys of `(1,12)` and `(11,2)` differ. -/
theorem chunkKey_eq_iff_witness :
    chunkKey 1 (-2) = "(1,-2)" ∧ chunkKey (-1) 2 = "(-1,2)" ∧ chunkKey 1 12 ≠ chunkKey 11 2 :=
  ⟨by decide, by decide,
    fun h => absurd ((chunkKey_eq_iff 1 12 11 2).mp h).1 (by decide)⟩

/-- C20. Chunk store frame and persistence: `getOrCreateChunk(x, y)` does not
change what `getChunk` returns at any other position, and once `getChunk(x, y)`
returns a chunk it returns that chunk after any later sequence of `getChunk` and
`getOrCreateChunk` calls. -/
theorem chunk_store_frame (wall : Wall) (x y : Int) :
    (∀ x' y' : Int, ¬ (x' = x ∧ y' = y) →
        (wall.getOrCreateChunk x y).2.getChunk x' y' = wall.getChunk x' y') ∧
      (∀ (chunk : Chunk) (ops : List WallOp), wall.getChunk x y = some chunk →
        (wall.applyAll ops).getChunk x y = some chunk) :=
  ⟨fun x' y' hne => getOrCreateChunk_getChunk_other wall x y x' y' hne,
    fun chunk ops h => applyAll_getChunk_some ops x y chunk wall h⟩

/-- C20, at a concrete wall: the chunk created at `(0,0)` is still returned after
chunks are created at `(1,0)` and `(0,1)`. -/
theorem chunk_store_frame_witness :
    (((Wall.new 1 []).getOrCreateChunk 0 0).2.applyAll
        [.getOrCreateChunk 1 0, .getChunk 5 5, .getOrCreateChunk 0 1,
          .getOrCreateChunk 0 0]).getChunk 0 0 =
      some { size := 1, pixmap := [0, 0, 0, 0], canvas := [0, 0, 0, 0] } :=
  (chunk_store_frame ((Wall.new 1 []).getOrCreateChunk 0 0).2 0 0).2
    { size := 1, pixmap := [0, 0, 0, 0], canvas := [0, 0, 0, 0] }
    [.getOrCreateChunk 1 0, .getChunk 5 5, .getOrCreateChunk 0 1, .getOrCreateChunk 0 0]
    (by decide)

end Rkgk
